import Mathlib

/-!
# mysql-geotest: a shallow embedding of `main.go`

The program populates a MySQL table with random polygons (`prepare`), runs
point-in-polygon queries from several goroutines for a fixed time (`run`,
`oneRun`) and drops the table (`cleanup`).

Modelling conventions

* Go `int` is the 64-bit two's complement integer: arithmetic on it is done
  in `Int` and wrapped by `wrapInt`.  `uint64` is a `Nat` wrapped by
  `wrapUint64`.
* `float64` values are elements of a linearly ordered commutative ring `F`
  (a field where the program divides): exact arithmetic, no rounding and no
  NaN.  `math.Sin`, `math.Cos`, `math.Pi` and the `%v` formatting verb are
  passed in a `FloatLib`.
* The pseudo-random generator and the database are the environment: every
  value they return is an input of the model.
* A `log.Panic` / runtime panic is an explicit result, never an exception
  of the host language.
* Loops that the program bounds by its data take a `fuel` argument and
  report `outOfFuel` when it runs out; the goroutines of `run` are
  interleaved by an explicit schedule.
-/

namespace GeoTest

/-! ## Machine integers -/

/-- The value of a Go `int` (64 bit, two's complement) holding the
mathematical integer `z` after wrap-around. -/
def wrapInt (z : Int) : Int := (z + 2 ^ 63) % 2 ^ 64 - 2 ^ 63

/-- The value of a Go `uint64` holding the natural number `n` after
wrap-around. -/
def wrapUint64 (n : Nat) : Nat := n % 2 ^ 64

/-- The largest Go `int`. -/
def maxInt : Int := 2 ^ 63 - 1

/-- The smallest Go `int`. -/
def minInt : Int := -(2 ^ 63)

/-- Whether a mathematical integer is the value of some Go `int`. -/
def isInt (z : Int) : Prop := minInt ≤ z ∧ z ≤ maxInt

instance (z : Int) : Decidable (isInt z) := by unfold isInt; infer_instance

/-! ## Flags -/

/-- The flag variables of `main.go` (lines 18-38) after `flag.Parse`. -/
structure Flags (F : Type) where
  dsn : String
  tableName : String
  tableSize : Nat
  tableEngine : String
  xMin : F
  xMax : F
  yMin : F
  yMax : F
  radius : F
  minPoints : Int
  maxPoints : Int
  maxTime : Int
  numThreads : Int
  printSegments : Bool

/-! ## Library functions used by the program -/

/-- The floating point library functions the program calls: `math.Sin`,
`math.Cos`, the constant `math.Pi` and the formatting of a `float64` by the
verb `%v`. -/
structure FloatLib (F : Type) where
  sin : F → F
  cos : F → F
  pi : F
  fmtV : F → String

/-- The call `rand.Intn(k)`: it panics when `k <= 0` and otherwise returns
the drawn value `r` (which the generator takes from `[0, k)`). -/
def randIntn (r k : Int) : Except String Int :=
  if k ≤ 0 then .error "invalid argument to Intn" else .ok r

/-- Insertion of one element into an ascending list, before the first
element that is larger. -/
def insertAscending {F : Type} [LinearOrder F] (a : F) : List F → List F
  | [] => [a]
  | b :: l => if a ≤ b then a :: b :: l else b :: insertAscending a l

/-- The call `sort.Float64s(angles)` of the Go standard library, which sorts
the slice in increasing order.  The library routine is not part of the
program; it is modelled by insertion sort. -/
def sortFloat64s {F : Type} [LinearOrder F] : List F → List F
  | [] => []
  | a :: l => insertAscending a (sortFloat64s l)

/-- The call `strings.Join(elems, sep)`. -/
def stringsJoin (elems : List String) (sep : String) : String :=
  match elems with
  | [] => ""
  | [e] => e
  | e :: rest => e ++ sep ++ stringsJoin rest sep

/-! ## Polygon generation: the body of the loop of `prepare` -/

/-- The values the random generator returns during one iteration of the
loop of `prepare`: three `rand.Float64()` for the centre and the disk
radius, the result of `rand.Intn`, and the `rand.Float64()` drawn for
`angles[j]`. -/
structure Draw (F : Type) where
  u : F
  v : F
  w : F
  r : Int
  a : Nat → F

/-- Lines 83-84: a coordinate of the centre,
`lo + rand.Float64()*(hi-lo)`. -/
def centreCoord {F : Type} [LinearOrderedCommRing F] (lo hi u : F) : F :=
  lo + u * (hi - lo)

/-- Line 85: the radius of the disk, `rand.Float64() * radius`. -/
def diskRadius {F : Type} [LinearOrderedCommRing F] (w radius : F) : F :=
  w * radius

/-- Line 86: the number of vertices, `minPoints + rand.Intn(maxPoints -
minPoints)`, in `int` arithmetic. -/
def vertexCount (minPoints maxPoints r : Int) : Except String Int :=
  match randIntn r (wrapInt (maxPoints - minPoints)) with
  | .error e => .error e
  | .ok r => .ok (wrapInt (minPoints + r))

/-- Lines 87-90: the angles as drawn, `angles[j] = rand.Float64() * 2 *
math.Pi` for `j < n`. -/
def drawAngles {F : Type} [LinearOrderedCommRing F] (lib : FloatLib F)
    (a : Nat → F) (n : Nat) : List F :=
  (List.range n).map (fun j => a j * 2 * lib.pi)

/-- The two coordinates of a vertex (the arguments of the `Sprintf` of
line 94): `x + d*sin(angle)` and `y + d*cos(angle)`. -/
def vertexXY {F : Type} [LinearOrderedCommRing F] (lib : FloatLib F)
    (x y d angle : F) : F × F :=
  (x + d * lib.sin angle, y + d * lib.cos angle)

/-- Line 94: the text of a vertex, `fmt.Sprintf("%v %v", ...)`. -/
def vertexText {F : Type} (lib : FloatLib F) (pt : F × F) : String :=
  lib.fmtV pt.1 ++ " " ++ lib.fmtV pt.2

/-- Lines 92-95: the coordinates of the vertices, one for each angle of the
(sorted) slice, in the order of the slice. -/
def placeVertices {F : Type} [LinearOrderedCommRing F] (lib : FloatLib F)
    (x y d : F) (angles : List F) : List (F × F) :=
  angles.map (vertexXY lib x y d)

/-- Lines 98-100: the lines printed for the edges `vertices[j-1],
vertices[j]`, `1 <= j < n`. -/
def innerSegments : List String → List String
  | a :: b :: rest => ("POLY: " ++ a ++ " " ++ b ++ "\n") :: innerSegments (b :: rest)
  | _ => []

/-- Lines 97-102: the output of the `printSegments` block; the closing edge
reads `vertices[n-1]` and `vertices[0]`, which panics on an empty slice. -/
def segmentLines (printSegments : Bool) (vertices : List String) :
    Except String (List String) :=
  if printSegments then
    match vertices.getLast?, vertices.head? with
    | some last, some first =>
      .ok (innerSegments vertices ++ ["POLY: " ++ last ++ " " ++ first ++ "\n"])
    | _, _ => .error "index out of range"
  else .ok []

/-- Line 104: `fmt.Sprintf("POLYGON((%s, %s))", strings.Join(vertices, ","),
vertices[0])`; reading `vertices[0]` panics on an empty slice. -/
def polygonText (vertices : List String) : Except String String :=
  match vertices.head? with
  | none => .error "index out of range"
  | some first => .ok ("POLYGON((" ++ stringsJoin vertices "," ++ ", " ++ first ++ "))")

/-- The points of the ring of a text `POLYGON((p1,p2, ...))` as a reader
of the well-known-text format takes them: the text between `POLYGON((` and
`))` is cut at the commas and the blanks in front of a point are skipped.
This is the reading side (the `GeomFromText` of the server), used to say
which ring a text denotes. -/
def wktRingPoints (text : String) : List String :=
  let body := ((text.data.drop 9).dropLast).dropLast
  (body.splitOn ',').map (fun cs => String.mk (cs.dropWhile (fun c => c == ' ')))

/-- The local variables of one iteration of the loop of `prepare` when it
reaches the `INSERT` of line 105. -/
structure Polygon (F : Type) where
  x : F
  y : F
  d : F
  n : Int
  drawn : List F
  angles : List F
  points : List (F × F)
  vertices : List String
  printed : List String
  text : String

/-- Lines 83-104: one iteration of the loop of `prepare` up to the
`INSERT`.  `make([]float64, n)` panics when `n` is negative. -/
def genPolygon {F : Type} [LinearOrderedCommRing F] (lib : FloatLib F)
    (cfg : Flags F) (dr : Draw F) : Except String (Polygon F) :=
  let x := centreCoord cfg.xMin cfg.xMax dr.u
  let y := centreCoord cfg.yMin cfg.yMax dr.v
  let d := diskRadius dr.w cfg.radius
  match vertexCount cfg.minPoints cfg.maxPoints dr.r with
  | .error e => .error e
  | .ok n =>
    if n < 0 then .error "makeslice: len out of range" else
    let drawn := drawAngles lib dr.a n.toNat
    let angles := sortFloat64s drawn
    let points := placeVertices lib x y d angles
    let vertices := points.map (vertexText lib)
    match segmentLines cfg.printSegments vertices with
    | .error e => .error e
    | .ok printed =>
      match polygonText vertices with
      | .error e => .error e
      | .ok text =>
        .ok { x := x, y := y, d := d, n := n, drawn := drawn, angles := angles,
              points := points, vertices := vertices, printed := printed, text := text }

/-! ## The database -/

/-- The SQL statements the program passes to `exec`. -/
inductive Stmt where
  | createTable (table engine : String)
  | insert (table polygon : String)
  | dropTable (table : String)
  deriving DecidableEq, Repr

/-- The text of a statement, as built by the `fmt.Sprintf` calls of lines
67-74, 105 and 174. -/
def Stmt.sql : Stmt → String
  | .createTable table engine =>
    "CREATE TABLE IF NOT EXISTS " ++ table ++ " (\n" ++
    "       id INTEGER UNSIGNED NOT NULL AUTO_INCREMENT,\n" ++
    "       poly POLYGON NOT NULL,\n" ++
    "       c CHAR(120) DEFAULT \x27\x27 NOT NULL,\n" ++
    "       pad CHAR(60) DEFAULT \x27\x27 NOT NULL,\n" ++
    "       PRIMARY KEY(id),\n" ++
    "       SPATIAL INDEX(poly)\n" ++
    ") ENGINE=" ++ engine
  | .insert table polygon =>
    "INSERT INTO " ++ table ++ "(poly) VALUES (GeomFromText(\x27" ++ polygon ++ "\x27))"
  | .dropTable table => "DROP TABLE " ++ "\x60" ++ table ++ "\x60"

/-- Whether a statement is an `INSERT`. -/
def Stmt.isInsert : Stmt → Bool
  | .insert _ _ => true
  | _ => false

/-- Whether a statement removes rows (only `DROP TABLE` does). -/
def Stmt.isDrop : Stmt → Bool
  | .dropTable _ => true
  | _ => false

/-- A `sql.Result`: what its methods `LastInsertId` and `RowsAffected`
return. -/
structure SqlResult where
  lastInsertId : Except String Int
  rowsAffected : Except String Int

/-- The database as the program sees it: a state and the answers to
`db.Exec(query)` and to the row-count query `SELECT COUNT(*) rows FROM
table` of `numRows`. -/
structure Database (σ : Type) where
  exec : σ → Stmt → Except String SqlResult × σ
  countRows : σ → String → Except String Nat × σ

/-- What a call of the function `exec` does: it returns its three values or
it panics. -/
inductive ExecReturn where
  | values (last rows : Int) (err : Option String)
  | panic (msg : String)

/-- The function `exec` (lines 40-54). -/
def exec {σ : Type} (db : Database σ) (st : σ) (query : Stmt) : ExecReturn × σ :=
  match db.exec st query with
  | (.error err, st1) => (.values 0 0 (some err), st1)
  | (.ok r, st1) =>
    match r.lastInsertId with
    | .error err => (.panic err, st1)
    | .ok last =>
      match r.rowsAffected with
      | .error err => (.panic err, st1)
      | .ok rows => (.values last rows none, st1)

/-- The function `numRows` (lines 56-64): the count is scanned into a
`uint64`; an error of the query or of the conversion panics. -/
def numRows {σ : Type} (db : Database σ) (table : String) (st : σ) :
    Except String Nat × σ :=
  match db.countRows st table with
  | (.error err, st1) => (.error err, st1)
  | (.ok n, st1) =>
    if n < 2 ^ 64 then (.ok n, st1) else (.error "value out of range", st1)

/-! ## Runs -/

/-- What the program did to its environment, in order. -/
inductive Event where
  | exec (query : Stmt)
  | numRows
  | print (line : String)
  deriving DecidableEq, Repr

/-- Whether an event is the execution of an `INSERT`. -/
def Event.isInsert : Event → Bool
  | .exec q => q.isInsert
  | _ => false

/-- Whether an event is the execution of a `DROP TABLE`. -/
def Event.isDrop : Event → Bool
  | .exec q => q.isDrop
  | _ => false

/-- How a function ended: it returned, it panicked, or the model ran out of
fuel before it ended. -/
inductive Status where
  | returned
  | panicked (msg : String)
  | outOfFuel
  deriving DecidableEq, Repr

/-- The result of running a function against the database: how it ended,
the state of the database and the events so far. -/
structure Run (σ : Type) where
  status : Status
  db : σ
  trace : List Event

/-- The number of `INSERT` statements executed in a run. -/
def Run.inserts {σ : Type} (r : Run σ) : Nat := r.trace.countP Event.isInsert

/-! ## `prepare` -/

/-- The loop of `prepare` (lines 82-106) with the final `numRows` of line
108.  `i` is the `uint64` loop variable, `k` counts the iterations done (it
selects the random draws), `fuel` bounds the number of evaluations of the
loop condition.  The values returned by `exec` at line 105 are discarded by
the program, so an `INSERT` that returns an error is followed by the next
iteration. -/
def prepareLoop {σ F : Type} [LinearOrderedCommRing F] (lib : FloatLib F)
    (cfg : Flags F) (db : Database σ) (draws : Nat → Draw F) :
    Nat → Nat → Nat → σ → List Event → Run σ
  | 0, _, _, st, tr => { status := .outOfFuel, db := st, trace := tr }
  | fuel + 1, k, i, st, tr =>
    if i < cfg.tableSize then
      match genPolygon lib cfg (draws k) with
      | .error e => { status := .panicked e, db := st, trace := tr }
      | .ok p =>
        let tr1 := tr ++ p.printed.map Event.print ++
          [Event.exec (.insert cfg.tableName p.text)]
        match exec db st (.insert cfg.tableName p.text) with
        | (.panic e, st1) => { status := .panicked e, db := st1, trace := tr1 }
        | (.values _ _ _, st1) =>
          prepareLoop lib cfg db draws fuel (k + 1) (wrapUint64 (i + 1)) st1 tr1
    else
      match numRows db cfg.tableName st with
      | (.error e, st1) => { status := .panicked e, db := st1, trace := tr ++ [Event.numRows] }
      | (.ok _, st1) => { status := .returned, db := st1, trace := tr ++ [Event.numRows] }

/-- The function `prepare` (lines 66-109). -/
def prepare {σ F : Type} [LinearOrderedCommRing F] (lib : FloatLib F)
    (cfg : Flags F) (db : Database σ) (draws : Nat → Draw F) (fuel : Nat)
    (st : σ) : Run σ :=
  let create := Stmt.createTable cfg.tableName cfg.tableEngine
  match exec db st create with
  | (.panic e, st1) => { status := .panicked e, db := st1, trace := [Event.exec create] }
  | (.values _ _ (some e), st1) =>
    { status := .panicked e, db := st1, trace := [Event.exec create] }
  | (.values _ _ none, st1) =>
    match numRows db cfg.tableName st1 with
    | (.error e, st2) =>
      { status := .panicked e, db := st2, trace := [Event.exec create, Event.numRows] }
    | (.ok start, st2) =>
      prepareLoop lib cfg db draws fuel 0 start st2 [Event.exec create, Event.numRows]

/-- The `cleanup` branch of `main` (line 174): the values returned by
`exec` are discarded. -/
def cleanup {σ F : Type} (cfg : Flags F) (db : Database σ) (st : σ) : Run σ :=
  match exec db st (.dropTable cfg.tableName) with
  | (.panic e, st1) =>
    { status := .panicked e, db := st1, trace := [Event.exec (.dropTable cfg.tableName)] }
  | (.values _ _ _, st1) =>
    { status := .returned, db := st1, trace := [Event.exec (.dropTable cfg.tableName)] }

/-! ## `main` -/

/-- What `main` does after `flag.Parse`: it prints the usage line and
returns, it exits through `log.Fatal`, it calls one of the three modes, or
it returns without doing anything. -/
inductive Action where
  | usage (line : String)
  | fatal (msg : String)
  | callPrepare
  | callRun
  | callCleanup
  | nothing
  deriving DecidableEq, Repr

/-- Whether `main` tells the user anything (a line on standard output or a
logged fatal error). -/
def Action.reports : Action → Bool
  | .usage _ => true
  | .fatal _ => true
  | _ => false

/-- Whether `main` calls `prepare`, `run` or the `DROP TABLE` of
`cleanup`. -/
def Action.invokesMode : Action → Bool
  | .callPrepare => true
  | .callRun => true
  | .callCleanup => true
  | _ => false

/-- The function `main` (lines 154-176).  `prog` is `os.Args[0]`, `args` is
`flag.Args()`, `openErr` is the error returned by `sql.Open`. -/
def main (prog : String) (args : List String) (openErr : Option String) : Action :=
  if args.length ≠ 1 then
    .usage ("Usage: " ++ prog ++ " [options] prepare|run|cleanup]\n")
  else
    match openErr with
    | some e => .fatal e
    | none =>
      match args.head? with
      | some "prepare" => .callPrepare
      | some "run" => .callRun
      | some "cleanup" => .callCleanup
      | _ => .nothing

/-! ## `oneRun` -/

/-- What `db.QueryRow(q, x, y).Scan(&count)` leaves behind: the value of
`count` and the error. -/
structure ScanReply where
  count : Int
  err : Option String

/-- The local variables `reqs` and `hits` of `oneRun`, with the points it
has queried so far. -/
structure Counters (F : Type) where
  reqs : Int
  hits : Int
  queries : List (F × F)

/-- Lines 124-132: one query of `oneRun`.  The point is drawn, the query is
issued, `count` is added to `hits`, then an error panics (the first
component is the panic message) and otherwise `reqs` is incremented. -/
def oneRunQuery {F : Type} [LinearOrderedCommRing F] (cfg : Flags F) (u v : F)
    (reply : ScanReply) (c : Counters F) : Option String × Counters F :=
  let x := centreCoord cfg.xMin cfg.xMax u
  let y := centreCoord cfg.yMin cfg.yMax v
  let hits := wrapInt (c.hits + reply.count)
  match reply.err with
  | some e => (some e, { reqs := c.reqs, hits := hits, queries := c.queries ++ [(x, y)] })
  | none =>
    (none, { reqs := wrapInt (c.reqs + 1), hits := hits, queries := c.queries ++ [(x, y)] })

/-- The result of `oneRun` run on its own: how it ended, its local
variables and the values it sent on `done`. -/
structure WorkerRun (F : Type) where
  status : Status
  counters : Counters F
  done : List Int

/-- The loop of `oneRun` (lines 116-133) against an environment given in
advance: `stop j` tells whether the `select` of iteration `j` (counted from
0) receives from `stop`, `pts j` are the two `rand.Float64()` of that
iteration and `replies j` is the outcome of its query. -/
def oneRunLoop {F : Type} [LinearOrderedCommRing F] (cfg : Flags F) (stop : Nat → Bool)
    (pts : Nat → F × F) (replies : Nat → ScanReply) :
    Nat → Nat → Counters F → WorkerRun F
  | 0, _, c => { status := .outOfFuel, counters := c, done := [] }
  | fuel + 1, j, c =>
    if stop j then { status := .returned, counters := c, done := [c.reqs] }
    else
      match oneRunQuery cfg (pts j).1 (pts j).2 (replies j) c with
      | (some e, c1) => { status := .panicked e, counters := c1, done := [] }
      | (none, c1) => oneRunLoop cfg stop pts replies fuel (j + 1) c1

/-- The function `oneRun` (lines 111-134), started with `reqs = 0` and
`hits = 0`. -/
def oneRun {F : Type} [LinearOrderedCommRing F] (cfg : Flags F) (stop : Nat → Bool)
    (pts : Nat → F × F) (replies : Nat → ScanReply) (fuel : Nat) : WorkerRun F :=
  oneRunLoop cfg stop pts replies fuel 0 { reqs := 0, hits := 0, queries := [] }

/-! ## Stores -/

/-- The methods `LastInsertId` and `RowsAffected` of every result the
database returns succeed (as they do with the MySQL driver), so `exec`
never panics. -/
def Database.resultsOk {σ : Type} (db : Database σ) : Prop :=
  ∀ st q r st1, db.exec st q = (.ok r, st1) →
    (∃ last, r.lastInsertId = .ok last) ∧ (∃ rows, r.rowsAffected = .ok rows)

/-- A store that holds only a number of rows: `CREATE TABLE IF NOT EXISTS`
leaves it as it is, every `INSERT` adds one row, `DROP TABLE` removes all
rows, and the row count is reported as it is. -/
def countingStore : Database Nat :=
  { exec := fun rows q =>
      match q with
      | .createTable _ _ => (.ok { lastInsertId := .ok 0, rowsAffected := .ok 0 }, rows)
      | .insert _ _ =>
        (.ok { lastInsertId := .ok (Int.ofNat (rows + 1)), rowsAffected := .ok 1 }, rows + 1)
      | .dropTable _ => (.ok { lastInsertId := .ok 0, rowsAffected := .ok 0 }, 0)
    countRows := fun rows _ => (.ok rows, rows) }

/-- A store on which every `INSERT` fails with an error and which has no
rows; its state counts the `INSERT` statements it has received. -/
def rejectingStore : Database Nat :=
  { exec := fun seen q =>
      match q with
      | .insert _ _ => (.error "Error 1416: Cannot get geometry object", seen + 1)
      | _ => (.ok { lastInsertId := .ok 0, rowsAffected := .ok 0 }, seen)
    countRows := fun seen _ => (.ok 0, seen) }

/-! ## `run` and its goroutines

The coordinator `run` and the goroutines it starts are interleaved by a
schedule: a list of steps, each naming the goroutine that moves and carrying
what the environment supplies if the step is a query.  A step is one
communication (a channel operation or a query) with the local computation
around it.  A goroutine that cannot move (a send on a full channel, a receive
from an empty one, a goroutine that has returned) leaves the state as it
is. -/

/-- Where a goroutine running `oneRun` stands: at the `select` of line 117,
before the query of lines 124-132 (the `default` case was taken), before
the send `done <- reqs` of line 120 (a value was received from `stop`), or
returned. -/
inductive WorkerPc where
  | select
  | query
  | send
  | exited
  deriving DecidableEq, Repr

/-- A goroutine running `oneRun`: its position and its local variables. -/
structure Worker (F : Type) where
  pc : WorkerPc
  counters : Counters F

/-- A goroutine running `oneRun` as `go oneRun(db, done, stop)` starts it:
`reqs = 0`, `hits = 0`, at the top of the loop. -/
def Worker.start {F : Type} : Worker F :=
  { pc := .select, counters := { reqs := 0, hits := 0, queries := [] } }

/-- Whether the goroutine has received a value from `stop`. -/
def Worker.stopped {F : Type} (w : Worker F) : Bool :=
  match w.pc with
  | .send => true
  | .exited => true
  | _ => false

/-- Whether the goroutine has sent its `reqs` on `done` and returned. -/
def Worker.hasExited {F : Type} (w : Worker F) : Bool :=
  match w.pc with
  | .exited => true
  | _ => false

/-- Where `run` stands: in the loop of lines 139-141 with loop variable `i`,
in `time.Sleep` (line 143), in the loop of lines 144-146, in the loop of
lines 148-150 with the running `total`, or after the `log.Printf` of line
151. -/
inductive CoordPc where
  | spawn (i : Int)
  | sleep
  | signal (i : Int)
  | collect (i total : Int)
  | finished (total : Int)
  deriving DecidableEq, Repr

/-- The state of the process during `run`: the coordinator, the goroutines
started so far, the number of values buffered in the channel `stop`, the
values buffered in the channel `done` (oldest first), the panic that has
killed the process if any, and the history: how many values `run` has sent
on `stop`, the values it has received from `done` (in order) and the
throughput it has logged. -/
structure System (F : Type) where
  coord : CoordPc
  workers : List (Worker F)
  stop : Nat
  done : List Int
  panic : Option String
  stopSends : Nat
  received : List Int
  report : Option F

/-- The method `Seconds` of `time.Duration`: `sec := d / Second; nsec := d %
Second; return float64(sec) + float64(nsec)/1e9`, with the truncating integer
division of Go. -/
def durationSeconds {F : Type} [LinearOrderedField F] (d : Int) : F :=
  ((d.tdiv 1000000000 : Int) : F) + ((d.tmod 1000000000 : Int) : F) / 1000000000

/-- Line 151: the logged value `float64(total)/maxTime.Seconds()`. -/
def throughput {F : Type} [LinearOrderedField F] (cfg : Flags F) (total : Int) : F :=
  (total : F) / durationSeconds cfg.maxTime

/-- The capacity of the channels made at lines 137-138. -/
def chanCap {F : Type} (cfg : Flags F) : Nat := cfg.numThreads.toNat

/-- The state when `run` has made its two channels (lines 137-138);
`make` panics on a negative size. -/
def runStart {F : Type} (cfg : Flags F) : System F :=
  { coord := .spawn 0, workers := [], stop := 0, done := [],
    panic := if cfg.numThreads < 0 then some "makechan: size out of range" else none,
    stopSends := 0, received := [], report := none }

/-- One step of `run` (lines 139-151). -/
def runStep {F : Type} [LinearOrderedField F] (cfg : Flags F) (s : System F) : System F :=
  match s.coord with
  | .spawn i =>
    if i < cfg.numThreads then
      { s with workers := s.workers ++ [Worker.start], coord := .spawn (wrapInt (i + 1)) }
    else { s with coord := .sleep }
  | .sleep => { s with coord := .signal 0 }
  | .signal i =>
    if i < cfg.numThreads then
      if s.stop < chanCap cfg then
        { s with stop := s.stop + 1, stopSends := s.stopSends + 1,
                 coord := .signal (wrapInt (i + 1)) }
      else s
    else { s with coord := .collect 0 0 }
  | .collect i total =>
    if i < cfg.numThreads then
      match s.done with
      | [] => s
      | v :: rest =>
        { s with done := rest, received := s.received ++ [v],
                 coord := .collect (wrapInt (i + 1)) (wrapInt (total + v)) }
    else { s with coord := .finished total, report := some (throughput cfg total) }
  | .finished _ => s

/-- What the environment supplies to a step that is a query: the two
`rand.Float64()` and the outcome of the query. -/
structure Env (F : Type) where
  u : F
  v : F
  reply : ScanReply

/-- One step of the goroutine number `w` running `oneRun` (lines 116-133).
At the `select` it receives from `stop` if a value is buffered and takes the
`default` case otherwise; a query that returns an error panics, which kills
the process. -/
def oneRunStep {F : Type} [LinearOrderedField F] (cfg : Flags F) (env : Env F)
    (s : System F) (w : Nat) : System F :=
  match s.workers[w]? with
  | none => s
  | some wk =>
    match wk.pc with
    | .select =>
      if 0 < s.stop then
        { s with stop := s.stop - 1, workers := s.workers.set w { wk with pc := .send } }
      else { s with workers := s.workers.set w { wk with pc := .query } }
    | .query =>
      match oneRunQuery cfg env.u env.v env.reply wk.counters with
      | (some e, c1) =>
        { s with panic := some e, workers := s.workers.set w { pc := .query, counters := c1 } }
      | (none, c1) => { s with workers := s.workers.set w { pc := .select, counters := c1 } }
    | .send =>
      if s.done.length < chanCap cfg then
        { s with done := s.done ++ [wk.counters.reqs],
                 workers := s.workers.set w { wk with pc := .exited } }
      else s
    | .exited => s

/-- The goroutines of the process: `run` itself and the goroutines it has
started, numbered from 0 in the order of their start. -/
inductive Tid where
  | coordinator
  | worker (w : Nat)
  deriving DecidableEq, Repr

/-- One step of the process: nothing moves after a panic. -/
def step {F : Type} [LinearOrderedField F] (cfg : Flags F) (s : System F)
    (t : Tid × Env F) : System F :=
  match s.panic with
  | some _ => s
  | none =>
    match t.1 with
    | .coordinator => runStep cfg s
    | .worker w => oneRunStep cfg t.2 s w

/-- The state of the process after the steps of a schedule. -/
def runSched {F : Type} [LinearOrderedField F] (cfg : Flags F) (s : System F)
    (sched : List (Tid × Env F)) : System F :=
  sched.foldl (step cfg) s

/-- The function `run` (lines 136-152) with the goroutines it starts, along
a schedule: the state of the process after the steps of the schedule. -/
def run {F : Type} [LinearOrderedField F] (cfg : Flags F)
    (sched : List (Tid × Env F)) : System F :=
  runSched cfg (runStart cfg) sched

/-- A schedule on which `run` comes to its end with `w` goroutines that
issue no query: the coordinator starts them, sleeps and sends the stop
signals; each goroutine receives one and sends its count; the coordinator
collects the counts. -/
def quietSchedule {F : Type} (env : Env F) (w : Nat) : List (Tid × Env F) :=
  List.replicate (w + 1) (Tid.coordinator, env) ++ [(Tid.coordinator, env)] ++
  List.replicate (w + 1) (Tid.coordinator, env) ++
  (List.range w).flatMap (fun j => [(Tid.worker j, env), (Tid.worker j, env)]) ++
  List.replicate (w + 1) (Tid.coordinator, env)

/-! ## The invariant of `run` -/

/-- The part of the invariant of `run` that depends on where the coordinator
stands. -/
def coordInv {F : Type} [LinearOrderedField F] (cfg : Flags F) (pc : CoordPc)
    (started sends : Nat) (received : List Int) (report : Option F) : Prop :=
  match pc with
  | .spawn i =>
    0 ≤ i ∧ i ≤ cfg.numThreads ∧ (started : Int) = i ∧ sends = 0 ∧ received = [] ∧
      report = none
  | .sleep => started = chanCap cfg ∧ sends = 0 ∧ received = [] ∧ report = none
  | .signal i =>
    0 ≤ i ∧ i ≤ cfg.numThreads ∧ started = chanCap cfg ∧ (sends : Int) = i ∧
      received = [] ∧ report = none
  | .collect i total =>
    0 ≤ i ∧ i ≤ cfg.numThreads ∧ started = chanCap cfg ∧ sends = chanCap cfg ∧
      (received.length : Int) = i ∧ total = wrapInt received.sum ∧ report = none
  | .finished total =>
    started = chanCap cfg ∧ sends = chanCap cfg ∧ received.length = chanCap cfg ∧
      total = wrapInt received.sum ∧ report = some (throughput cfg total)

/-- The invariant of `run`: the coordinator part, at most `numThreads`
goroutines, every value sent on `stop` is buffered or was received by one
goroutine, and the values received from `done` or buffered in it are the
counts of the goroutines that have returned. -/
def Inv {F : Type} [LinearOrderedField F] (cfg : Flags F) (s : System F) : Prop :=
  coordInv cfg s.coord s.workers.length s.stopSends s.received s.report ∧
  s.workers.length ≤ chanCap cfg ∧
  s.stopSends = s.stop + s.workers.countP Worker.stopped ∧
  (s.received ++ s.done).Perm
    ((s.workers.filter Worker.hasExited).map (fun w => w.counters.reqs))

/-- The invariant of `run` together with: a process in which `run` has come
to its end has not panicked. -/
def Safe {F : Type} [LinearOrderedField F] (cfg : Flags F) (s : System F) : Prop :=
  Inv cfg s ∧ ∀ total, s.coord = .finished total → s.panic = none

/-! ## Concrete inputs -/

/-- The default values of the flags (lines 19-37); `max_time` is one
minute in nanoseconds. -/
def defaultFlags : Flags ℚ :=
  { dsn := "root@unix(/var/lib/mysql/mysql.sock)/geotest"
    tableName := "geotest"
    tableSize := 10000
    tableEngine := "MyISAM"
    xMin := -10000
    xMax := 10000
    yMin := -10000
    yMax := 10000
    radius := 300
    minPoints := 3
    maxPoints := 20
    maxTime := 60000000000
    numThreads := 1
    printSegments := false }

/-- The flags `-x_min=-100 -x_max=100 -y_min=-100 -y_max=100 -radius=10
-min_points=3 -max_points=4 -table_size=5`. -/
def triangleFlags : Flags ℚ :=
  { defaultFlags with
    tableSize := 5, xMin := -100, xMax := 100, yMin := -100, yMax := 100,
    radius := 10, minPoints := 3, maxPoints := 4 }

/-- A stand-in for the floating point library over `ℚ`, used to evaluate
the model: a polynomial for `sin`, a polynomial for `cos`, `22/7` for `pi`,
and a rendering of a fraction as `num/den`. -/
def ratLib : FloatLib ℚ :=
  { sin := fun a => a
    cos := fun a => 1 - a * a / 2
    pi := 22 / 7
    fmtV := fun q => toString q.num ++ "/" ++ toString q.den }

/-- Random draws that are the same in every iteration: the three
`rand.Float64()` return `1/2`, `rand.Intn` returns `0` and the draw for
`angles[j]` is `1/(j+2)`. -/
def fixedDraw : Draw ℚ :=
  { u := 1 / 2, v := 1 / 2, w := 1 / 2, r := 0, a := fun j => 1 / ((j : ℚ) + 2) }

/-- The flags `-min_points=3 -max_points=4 -table_size=2`. -/
def twoRowFlags : Flags ℚ := { triangleFlags with tableSize := 2 }

/-- The flags `-min_points=0 -max_points=1 -table_size=5`. -/
def zeroPointsFlags : Flags ℚ := { triangleFlags with minPoints := 0, maxPoints := 1 }

/-- The default flags with `-min_points=3 -max_points=3`. -/
def equalPointsFlags : Flags ℚ := { defaultFlags with minPoints := 3, maxPoints := 3 }

/-- The default flags with `-num_threads=2 -max_time=2s`. -/
def twoThreadFlags : Flags ℚ := { defaultFlags with numThreads := 2, maxTime := 2000000000 }

/-! ## Facts about the library models -/

theorem wrapInt_of_isInt {z : Int} (h : isInt z) : wrapInt z = z := by
  unfold isInt minInt maxInt at h
  unfold wrapInt
  omega

theorem insertAscending_perm {F : Type} [LinearOrder F] (a : F) (l : List F) :
    (insertAscending a l).Perm (a :: l) := by
  induction l with
  | nil => simp [insertAscending]
  | cons b l ih =>
    unfold insertAscending
    split
    · exact List.Perm.refl _
    · exact (List.Perm.cons b ih).trans (List.Perm.swap a b l)

theorem insertAscending_sorted {F : Type} [LinearOrder F] (a : F) (l : List F)
    (h : l.Sorted (· ≤ ·)) : (insertAscending a l).Sorted (· ≤ ·) := by
  induction l with
  | nil => simp [insertAscending]
  | cons b l ih =>
    unfold insertAscending
    split
    · rename_i hab
      refine List.sorted_cons.2 ⟨?_, h⟩
      intro c hc
      rcases List.mem_cons.1 hc with rfl | hc
      · exact hab
      · exact le_trans hab (List.rel_of_sorted_cons h c hc)
    · rename_i hab
      have hba : b ≤ a := le_of_lt (not_le.1 hab)
      refine List.sorted_cons.2 ⟨?_, ih (List.Sorted.of_cons h)⟩
      intro c hc
      have hc2 : c ∈ a :: l := (insertAscending_perm a l).subset hc
      rcases List.mem_cons.1 hc2 with rfl | hc2
      · exact hba
      · exact List.rel_of_sorted_cons h c hc2

theorem sortFloat64s_perm {F : Type} [LinearOrder F] (l : List F) :
    (sortFloat64s l).Perm l := by
  induction l with
  | nil => simp [sortFloat64s]
  | cons a l ih =>
    unfold sortFloat64s
    exact (insertAscending_perm a _).trans (List.Perm.cons a ih)

theorem sortFloat64s_sorted {F : Type} [LinearOrder F] (l : List F) :
    (sortFloat64s l).Sorted (· ≤ ·) := by
  induction l with
  | nil => simp [sortFloat64s]
  | cons a l ih =>
    unfold sortFloat64s
    exact insertAscending_sorted a _ ih

theorem sortFloat64s_length {F : Type} [LinearOrder F] (l : List F) :
    (sortFloat64s l).length = l.length :=
  (sortFloat64s_perm l).length_eq

theorem drawAngles_length {F : Type} [LinearOrderedCommRing F] (lib : FloatLib F)
    (a : Nat → F) (n : Nat) : (drawAngles lib a n).length = n := by
  simp [drawAngles]

/-- A generated polygon carries the values the loop body computes. -/
theorem genPolygon_fields {F : Type} [LinearOrderedCommRing F] (lib : FloatLib F)
    (cfg : Flags F) (dr : Draw F) (p : Polygon F) (h : genPolygon lib cfg dr = .ok p) :
    vertexCount cfg.minPoints cfg.maxPoints dr.r = .ok p.n ∧ 0 ≤ p.n ∧
    p.x = centreCoord cfg.xMin cfg.xMax dr.u ∧
    p.y = centreCoord cfg.yMin cfg.yMax dr.v ∧
    p.d = diskRadius dr.w cfg.radius ∧
    p.drawn = drawAngles lib dr.a p.n.toNat ∧
    p.angles = sortFloat64s p.drawn ∧
    p.points = placeVertices lib p.x p.y p.d p.angles ∧
    p.vertices = p.points.map (vertexText lib) ∧
    segmentLines cfg.printSegments p.vertices = .ok p.printed ∧
    polygonText p.vertices = .ok p.text := by
  unfold genPolygon at h
  simp only at h
  split at h
  · exact absurd h (by simp)
  · rename_i n hn
    split at h
    · exact absurd h (by simp)
    · rename_i hn0
      split at h
      · exact absurd h (by simp)
      · rename_i printed hpr
        split at h
        · exact absurd h (by simp)
        · rename_i text htx
          simp only [Except.ok.injEq] at h
          subst h
          exact ⟨hn, not_lt.1 hn0, rfl, rfl, rfl, rfl, rfl, rfl, rfl, hpr, htx⟩

theorem polygonText_of_cons (first : String) (rest : List String) :
    polygonText (first :: rest) =
      .ok ("POLYGON((" ++ stringsJoin (first :: rest) "," ++ ", " ++ first ++ "))") := by
  simp [polygonText]

theorem segmentLines_returns (b : Bool) (vertices : List String) (h : vertices ≠ []) :
    ∃ printed, segmentLines b vertices = .ok printed := by
  cases vertices with
  | nil => exact absurd rfl h
  | cons first rest =>
    unfold segmentLines
    cases b with
    | false => exact ⟨[], by simp⟩
    | true =>
      obtain ⟨last, hlast⟩ : ∃ last, (first :: rest).getLast? = some last :=
        ⟨(first :: rest).getLast (by simp), List.getLast?_eq_getLast _ _⟩
      simp only [hlast, List.head?_cons, if_true]
      exact ⟨_, rfl⟩

/-- The loop body reaches the `INSERT` when `rand.Intn` gets a positive
argument and the number of vertices is positive. -/
theorem genPolygon_returns {F : Type} [LinearOrderedCommRing F] (lib : FloatLib F)
    (cfg : Flags F) (dr : Draw F)
    (hk : 0 < wrapInt (cfg.maxPoints - cfg.minPoints))
    (hn : 0 < wrapInt (cfg.minPoints + dr.r)) :
    ∃ p, genPolygon lib cfg dr = .ok p := by
  have hvc : vertexCount cfg.minPoints cfg.maxPoints dr.r =
      .ok (wrapInt (cfg.minPoints + dr.r)) := by
    simp [vertexCount, randIntn, not_le.2 hk]
  set n := wrapInt (cfg.minPoints + dr.r) with hnd
  have hne : ((placeVertices lib (centreCoord cfg.xMin cfg.xMax dr.u)
      (centreCoord cfg.yMin cfg.yMax dr.v) (diskRadius dr.w cfg.radius)
      (sortFloat64s (drawAngles lib dr.a n.toNat))).map (vertexText lib)) ≠ [] := by
    intro h0
    have hl := congrArg List.length h0
    simp [placeVertices, sortFloat64s_length, drawAngles_length] at hl
    omega
  obtain ⟨first, rest, hcons⟩ := List.exists_cons_of_ne_nil hne
  obtain ⟨printed, hpr⟩ := segmentLines_returns cfg.printSegments _ hne
  have htx := polygonText_of_cons first rest
  rw [← hcons] at htx
  unfold genPolygon
  simp only [hvc, not_lt.2 (le_of_lt hn), if_false, hpr, htx]
  exact ⟨_, rfl⟩

/-! ## The vertex count (C1) -/

/-- C1: in `prepare`, when `0 <= minPoints < maxPoints` and `rand.Intn`
returns `r` with `0 <= r < maxPoints - minPoints`, the vertex count is
`n = minPoints + r` with `minPoints <= n <= maxPoints - 1`, so it is never
`maxPoints`; a generated polygon has exactly `n` vertices, and with
`minPoints = 3`, `maxPoints = 4` that is exactly 3. -/
theorem vertexCount_below_maxPoints {F : Type} [LinearOrderedCommRing F]
    (lib : FloatLib F) (cfg : Flags F) (dr : Draw F)
    (hmin : 0 ≤ cfg.minPoints) (hlt : cfg.minPoints < cfg.maxPoints)
    (hmax : cfg.maxPoints ≤ maxInt)
    (hr0 : 0 ≤ dr.r) (hr : dr.r < cfg.maxPoints - cfg.minPoints) :
    ∃ n, vertexCount cfg.minPoints cfg.maxPoints dr.r = .ok n ∧
      n = cfg.minPoints + dr.r ∧ cfg.minPoints ≤ n ∧ n ≤ cfg.maxPoints - 1 ∧
      n ≠ cfg.maxPoints ∧
      (∀ p, genPolygon lib cfg dr = .ok p → p.n = n ∧ (p.vertices.length : Int) = n) ∧
      (1 ≤ n → ∃ p, genPolygon lib cfg dr = .ok p) ∧
      (cfg.minPoints = 3 → cfg.maxPoints = 4 → n = 3) := by
  have hk : wrapInt (cfg.maxPoints - cfg.minPoints) = cfg.maxPoints - cfg.minPoints := by
    apply wrapInt_of_isInt
    unfold maxInt at hmax
    unfold isInt minInt maxInt
    omega
  have hn : wrapInt (cfg.minPoints + dr.r) = cfg.minPoints + dr.r := by
    apply wrapInt_of_isInt
    unfold maxInt at hmax
    unfold isInt minInt maxInt
    omega
  have hvc : vertexCount cfg.minPoints cfg.maxPoints dr.r = .ok (cfg.minPoints + dr.r) := by
    have : ¬ cfg.maxPoints - cfg.minPoints ≤ 0 := by omega
    simp [vertexCount, randIntn, hk, hn, this]
  refine ⟨cfg.minPoints + dr.r, hvc, rfl, by omega, by omega, by omega, ?_, ?_, ?_⟩
  · intro p hp
    obtain ⟨h1, h2, -, -, -, h6, h7, h8, h9, -, -⟩ := genPolygon_fields lib cfg dr p hp
    rw [hvc] at h1
    have hpn : p.n = cfg.minPoints + dr.r := (Except.ok.inj h1).symm
    refine ⟨hpn, ?_⟩
    rw [h9, h8, h7, h6]
    simp only [placeVertices, List.length_map, sortFloat64s_length, drawAngles_length]
    rw [Int.toNat_of_nonneg h2, hpn]
  · intro h1
    exact genPolygon_returns lib cfg dr (by rw [hk]; omega) (by rw [hn]; omega)
  · intro h3 h4
    omega

theorem vertexCount_below_maxPoints_witness :
    ((0 : Int) ≤ triangleFlags.minPoints ∧ triangleFlags.minPoints < triangleFlags.maxPoints ∧
      triangleFlags.maxPoints ≤ maxInt ∧ 0 ≤ fixedDraw.r ∧
      fixedDraw.r < triangleFlags.maxPoints - triangleFlags.minPoints) ∧
    ∃ n, vertexCount triangleFlags.minPoints triangleFlags.maxPoints fixedDraw.r = .ok n ∧
      n = triangleFlags.minPoints + fixedDraw.r ∧ triangleFlags.minPoints ≤ n ∧
      n ≤ triangleFlags.maxPoints - 1 ∧ n ≠ triangleFlags.maxPoints ∧
      (∀ p, genPolygon ratLib triangleFlags fixedDraw = .ok p →
        p.n = n ∧ (p.vertices.length : Int) = n) ∧
      (1 ≤ n → ∃ p, genPolygon ratLib triangleFlags fixedDraw = .ok p) ∧
      (triangleFlags.minPoints = 3 → triangleFlags.maxPoints = 4 → n = 3) :=
  ⟨by decide, vertexCount_below_maxPoints ratLib triangleFlags fixedDraw
    (by decide) (by decide) (by decide) (by decide) (by decide)⟩

/-! ## Sorted angles (C2) -/

/-- C2: in `prepare`, for every number `n` of drawn angles, the slice that
`sort.Float64s` leaves for the vertex placement is a permutation of the
drawn angles, it is non-decreasing (`angles[j] <= angles[j+1]`), and vertex
`j` is computed from its `j`-th element; the loop body uses exactly these
values, and it reaches the placement whenever the argument of `rand.Intn`
and the vertex count are positive. -/
theorem prepare_angles_sorted {F : Type} [LinearOrderedCommRing F]
    (lib : FloatLib F) (cfg : Flags F) (dr : Draw F) :
    (∀ n : Nat,
      (drawAngles lib dr.a n).length = n ∧
      (sortFloat64s (drawAngles lib dr.a n)).Perm (drawAngles lib dr.a n) ∧
      (sortFloat64s (drawAngles lib dr.a n)).Sorted (· ≤ ·) ∧
      (∀ (j : Nat) (a b : F), (sortFloat64s (drawAngles lib dr.a n))[j]? = some a →
        (sortFloat64s (drawAngles lib dr.a n))[j + 1]? = some b → a ≤ b) ∧
      (∀ (x y d : F) (j : Nat) (a : F),
        (sortFloat64s (drawAngles lib dr.a n))[j]? = some a →
        (placeVertices lib x y d (sortFloat64s (drawAngles lib dr.a n)))[j]? =
          some (x + d * lib.sin a, y + d * lib.cos a))) ∧
    (∀ p, genPolygon lib cfg dr = .ok p →
      0 ≤ p.n ∧ p.drawn = drawAngles lib dr.a p.n.toNat ∧
      p.angles = sortFloat64s p.drawn ∧
      p.points = placeVertices lib p.x p.y p.d p.angles ∧
      p.vertices = p.points.map (vertexText lib)) ∧
    (0 < wrapInt (cfg.maxPoints - cfg.minPoints) → 0 < wrapInt (cfg.minPoints + dr.r) →
      ∃ p, genPolygon lib cfg dr = .ok p) := by
  refine ⟨?_, ?_, ?_⟩
  · intro n
    have hs := sortFloat64s_sorted (drawAngles lib dr.a n)
    refine ⟨drawAngles_length lib dr.a n, sortFloat64s_perm _, hs, ?_, ?_⟩
    · intro j a b ha hb
      obtain ⟨hj, rfl⟩ := List.getElem?_eq_some.1 ha
      obtain ⟨hj1, rfl⟩ := List.getElem?_eq_some.1 hb
      exact List.Sorted.rel_get_of_lt hs (show (⟨j, hj⟩ : Fin _) < ⟨j + 1, hj1⟩ from
        Nat.lt_succ_self j)
    · intro x y d j a ha
      simp [placeVertices, ha, vertexXY]
  · intro p hp
    obtain ⟨-, h2, -, -, -, h6, h7, h8, h9, -, -⟩ := genPolygon_fields lib cfg dr p hp
    exact ⟨h2, h6, h7, h8, h9⟩
  · intro hk hn
    exact genPolygon_returns lib cfg dr hk hn

/-! ## The closed ring (C3) -/

theorem splitOn_stringsJoin (vertices : List String) (hne : vertices ≠ [])
    (hcomma : ∀ v ∈ vertices, ',' ∉ v.data) (tail : List Char) (htail : ',' ∉ tail) :
    ((stringsJoin vertices ",").data ++ ',' :: tail).splitOn ',' =
      vertices.map String.data ++ [tail] := by
  have hsingle : tail.splitOn ',' = [tail] := by
    refine List.splitOnP_eq_single _ _ ?_
    intro c hc hcc
    rw [eq_of_beq hcc] at hc
    exact htail hc
  induction vertices with
  | nil => exact absurd rfl hne
  | cons e rest ih =>
    have he : ∀ c ∈ e.data, ¬ (c == ',') = true := by
      intro c hc hcc
      rw [eq_of_beq hcc] at hc
      exact hcomma e (List.mem_cons_self _ _) hc
    cases rest with
    | nil =>
      show (e.data ++ ',' :: tail).splitOnP (fun c => c == ',') = _
      rw [List.splitOnP_first _ _ he ',' (by simp)]
      simpa [List.splitOn] using hsingle
    | cons e2 rest2 =>
      have ih2 := ih (by simp) (fun v hv => hcomma v (List.mem_cons_of_mem _ hv))
      have hj : (stringsJoin (e :: e2 :: rest2) ",").data ++ ',' :: tail =
          e.data ++ ',' :: ((stringsJoin (e2 :: rest2) ",").data ++ ',' :: tail) := by
        have hsj : stringsJoin (e :: e2 :: rest2) "," =
            e ++ "," ++ stringsJoin (e2 :: rest2) "," := rfl
        rw [hsj]
        simp only [String.data_append, List.append_assoc]
        rfl
      rw [hj]
      show (e.data ++ ',' :: _).splitOnP (fun c => c == ',') = _
      rw [List.splitOnP_first _ _ he ',' (by simp)]
      simp only [List.map_cons, List.cons_append, List.cons.injEq, true_and]
      simpa [List.splitOn] using ih2

theorem dropWhile_blank_of_head (cs : List Char) (h : cs.head? ≠ some ' ') :
    cs.dropWhile (fun c => c == ' ') = cs := by
  cases cs with
  | nil => rfl
  | cons c rest =>
    have hc : c ≠ ' ' := fun hc => h (by simp [hc])
    simp [List.dropWhile_cons, hc]

theorem wktRingPoints_polygon (first : String) (rest : List String)
    (hcomma : ∀ v ∈ first :: rest, ',' ∉ v.data)
    (hblank : ∀ v ∈ first :: rest, v.data.head? ≠ some ' ') :
    wktRingPoints ("POLYGON((" ++ stringsJoin (first :: rest) "," ++ ", " ++ first ++ "))") =
      (first :: rest) ++ [first] := by
  have hdata : ("POLYGON((" ++ stringsJoin (first :: rest) "," ++ ", " ++ first ++ "))").data =
      "POLYGON((".data ++ ((((stringsJoin (first :: rest) ",").data ++
        ',' :: ' ' :: first.data) ++ [')']) ++ [')']) := by
    simp only [String.data_append, List.append_assoc]
    rfl
  have hdrop : ∀ l : List Char, ("POLYGON((".data ++ l).drop 9 = l := fun l => rfl
  have htail : ',' ∉ ' ' :: first.data := by
    intro h
    rcases List.mem_cons.1 h with h | h
    · exact absurd h (by decide)
    · exact hcomma first (List.mem_cons_self _ _) h
  unfold wktRingPoints
  simp only [hdata, hdrop, List.dropLast_concat]
  rw [splitOn_stringsJoin (first :: rest) (by simp) hcomma _ htail]
  rw [List.map_append, List.map_map]
  congr 1
  · conv_rhs => rw [← List.map_id (first :: rest)]
    apply List.map_congr_left
    intro v hv
    simp only [Function.comp, id]
    rw [dropWhile_blank_of_head v.data (hblank v hv)]
  · simp only [List.map_cons, List.map_nil, List.dropWhile]
    rw [show ((' ' : Char) == ' ') = true from rfl]
    simp only
    rw [dropWhile_blank_of_head first.data (hblank first (List.mem_cons_self _ _))]

/-- C3: in `prepare`, for every slice of `n >= 1` vertices, the text of
line 104 is `POLYGON((` + the vertices joined by commas + `, ` + `vertices[0]`
+ `))`: its ring is the `n` vertices in their order followed by one repeat
of `vertices[0]`, which has `n + 1` points and ends with its first point.
For vertex texts without a comma and without a leading blank (such as two
formatted numbers) that ring is what a reader of the text gets back. -/
theorem polygonText_closed_ring (vertices : List String) (hn : 1 ≤ vertices.length) :
    ∃ first text,
      vertices.head? = some first ∧
      polygonText vertices = .ok text ∧
      text = "POLYGON((" ++ stringsJoin vertices "," ++ ", " ++ first ++ "))" ∧
      (vertices ++ [first]).length = vertices.length + 1 ∧
      (vertices ++ [first]).getLast? = (vertices ++ [first]).head? ∧
      (vertices ++ [first]).take vertices.length = vertices ∧
      ((∀ v ∈ vertices, ',' ∉ v.data) → (∀ v ∈ vertices, v.data.head? ≠ some ' ') →
        wktRingPoints text = vertices ++ [first]) := by
  cases vertices with
  | nil => simp at hn
  | cons first rest =>
    refine ⟨first, _, rfl, polygonText_of_cons first rest, rfl, by simp,
      by rw [List.getLast?_concat]; simp, by simp, ?_⟩
    intro hcomma hblank
    exact wktRingPoints_polygon first rest hcomma hblank

theorem polygonText_closed_ring_witness :
    1 ≤ ["0 1", "1 0", "-1 0"].length ∧
    ∃ first text,
      ["0 1", "1 0", "-1 0"].head? = some first ∧
      polygonText ["0 1", "1 0", "-1 0"] = .ok text ∧
      text = "POLYGON((" ++ stringsJoin ["0 1", "1 0", "-1 0"] "," ++ ", " ++ first ++ "))" ∧
      (["0 1", "1 0", "-1 0"] ++ [first]).length = ["0 1", "1 0", "-1 0"].length + 1 ∧
      (["0 1", "1 0", "-1 0"] ++ [first]).getLast? =
        (["0 1", "1 0", "-1 0"] ++ [first]).head? ∧
      (["0 1", "1 0", "-1 0"] ++ [first]).take ["0 1", "1 0", "-1 0"].length =
        ["0 1", "1 0", "-1 0"] ∧
      ((∀ v ∈ ["0 1", "1 0", "-1 0"], ',' ∉ v.data) →
        (∀ v ∈ ["0 1", "1 0", "-1 0"], v.data.head? ≠ some ' ') →
        wktRingPoints text = ["0 1", "1 0", "-1 0"] ++ [first]) :=
  ⟨by decide, polygonText_closed_ring ["0 1", "1 0", "-1 0"] (by decide)⟩

/-! ## Centre, radius and vertices over the real numbers (C9) -/

theorem centreCoord_mem (lo hi u : ℝ) (h : lo ≤ hi) (hu0 : 0 ≤ u) (hu1 : u < 1) :
    lo ≤ centreCoord lo hi u ∧ centreCoord lo hi u ≤ hi := by
  unfold centreCoord
  have hd : 0 ≤ hi - lo := sub_nonneg.2 h
  have h1 : 0 ≤ u * (hi - lo) := mul_nonneg hu0 hd
  have h2 : u * (hi - lo) ≤ 1 * (hi - lo) := mul_le_mul_of_nonneg_right (le_of_lt hu1) hd
  constructor <;> linarith

theorem diskRadius_mem (w radius : ℝ) (h : 0 ≤ radius) (hw0 : 0 ≤ w) (hw1 : w < 1) :
    0 ≤ diskRadius w radius ∧ diskRadius w radius ≤ radius := by
  unfold diskRadius
  have h2 : w * radius ≤ 1 * radius := mul_le_mul_of_nonneg_right (le_of_lt hw1) h
  exact ⟨mul_nonneg hw0 h, by linarith⟩

theorem vertexXY_on_circle (fmtV : ℝ → String) (x y d a : ℝ) (hd : 0 ≤ d) :
    |(vertexXY { sin := Real.sin, cos := Real.cos, pi := Real.pi, fmtV := fmtV } x y d a).1 - x|
      ≤ d ∧
    |(vertexXY { sin := Real.sin, cos := Real.cos, pi := Real.pi, fmtV := fmtV } x y d a).2 - y|
      ≤ d ∧
    Real.sqrt
      (((vertexXY { sin := Real.sin, cos := Real.cos, pi := Real.pi, fmtV := fmtV }
          x y d a).1 - x) ^ 2 +
       ((vertexXY { sin := Real.sin, cos := Real.cos, pi := Real.pi, fmtV := fmtV }
          x y d a).2 - y) ^ 2) = d := by
  simp only [vertexXY, add_sub_cancel_left]
  refine ⟨?_, ?_, ?_⟩
  · rw [abs_mul, abs_of_nonneg hd]
    exact mul_le_of_le_one_right hd (Real.abs_sin_le_one a)
  · rw [abs_mul, abs_of_nonneg hd]
    exact mul_le_of_le_one_right hd (Real.abs_cos_le_one a)
  · have h : (d * Real.sin a) ^ 2 + (d * Real.cos a) ^ 2 = d ^ 2 := by
      have := Real.sin_sq_add_cos_sq a
      nlinarith [this]
    rw [h]
    exact Real.sqrt_sq hd

/-- C9: over the real numbers, for `xMin <= xMax`, `yMin <= yMax`,
`radius >= 0` and draws `u, v, w` in `[0, 1)`, the centre computed at lines
83-84 lies in the rectangle, the disk radius `d` of line 85 lies in
`[0, radius]`, and for every angle `a` the vertex of line 94 differs from the
centre by at most `d` in each coordinate and lies at Euclidean distance
exactly `d` (so at most `radius`) from it; the same holds for every vertex of
a polygon the loop body generates. -/
theorem vertices_within_disk (fmtV : ℝ → String) (cfg : Flags ℝ) (dr : Draw ℝ) (a : ℝ)
    (hx : cfg.xMin ≤ cfg.xMax) (hy : cfg.yMin ≤ cfg.yMax) (hrad : 0 ≤ cfg.radius)
    (hu : 0 ≤ dr.u ∧ dr.u < 1) (hv : 0 ≤ dr.v ∧ dr.v < 1) (hw : 0 ≤ dr.w ∧ dr.w < 1) :
    let lib : FloatLib ℝ := { sin := Real.sin, cos := Real.cos, pi := Real.pi, fmtV := fmtV }
    let x := centreCoord cfg.xMin cfg.xMax dr.u
    let y := centreCoord cfg.yMin cfg.yMax dr.v
    let d := diskRadius dr.w cfg.radius
    (cfg.xMin ≤ x ∧ x ≤ cfg.xMax ∧ cfg.yMin ≤ y ∧ y ≤ cfg.yMax) ∧
    (0 ≤ d ∧ d ≤ cfg.radius) ∧
    (vertexXY lib x y d a = (x + d * Real.sin a, y + d * Real.cos a) ∧
      |(vertexXY lib x y d a).1 - x| ≤ d ∧ |(vertexXY lib x y d a).2 - y| ≤ d ∧
      Real.sqrt (((vertexXY lib x y d a).1 - x) ^ 2 + ((vertexXY lib x y d a).2 - y) ^ 2) = d ∧
      Real.sqrt (((vertexXY lib x y d a).1 - x) ^ 2 + ((vertexXY lib x y d a).2 - y) ^ 2)
        ≤ cfg.radius) ∧
    (∀ p, genPolygon lib cfg dr = .ok p →
      p.x = x ∧ p.y = y ∧ p.d = d ∧
      ∀ q ∈ p.points, |q.1 - x| ≤ d ∧ |q.2 - y| ≤ d ∧
        Real.sqrt ((q.1 - x) ^ 2 + (q.2 - y) ^ 2) = d) := by
  intro lib x y d
  have hxm := centreCoord_mem cfg.xMin cfg.xMax dr.u hx hu.1 hu.2
  have hym := centreCoord_mem cfg.yMin cfg.yMax dr.v hy hv.1 hv.2
  have hdm := diskRadius_mem dr.w cfg.radius hrad hw.1 hw.2
  have hc := fun b => vertexXY_on_circle fmtV x y d b hdm.1
  refine ⟨⟨hxm.1, hxm.2, hym.1, hym.2⟩, hdm, ⟨rfl, (hc a).1, (hc a).2.1, (hc a).2.2, ?_⟩, ?_⟩
  · rw [(hc a).2.2]; exact hdm.2
  · intro p hp
    obtain ⟨-, -, h3, h4, h5, -, -, h8, -, -, -⟩ := genPolygon_fields lib cfg dr p hp
    refine ⟨h3, h4, h5, ?_⟩
    intro q hq
    rw [h8, h3, h4, h5] at hq
    obtain ⟨b, -, rfl⟩ := List.mem_map.1 hq
    exact hc b

theorem vertices_within_disk_witness :
    let cfg : Flags ℝ :=
      { dsn := "", tableName := "geotest", tableSize := 5, tableEngine := "MyISAM",
        xMin := -100, xMax := 100, yMin := -100, yMax := 100, radius := 10,
        minPoints := 3, maxPoints := 4, maxTime := 2000000000, numThreads := 4,
        printSegments := false }
    let dr : Draw ℝ := { u := 1 / 2, v := 1 / 4, w := 3 / 4, r := 0, a := fun _ => 1 / 3 }
    let lib : FloatLib ℝ :=
      { sin := Real.sin, cos := Real.cos, pi := Real.pi, fmtV := fun _ => "" }
    let x := centreCoord cfg.xMin cfg.xMax dr.u
    let y := centreCoord cfg.yMin cfg.yMax dr.v
    let d := diskRadius dr.w cfg.radius
    (cfg.xMin ≤ cfg.xMax ∧ cfg.yMin ≤ cfg.yMax ∧ 0 ≤ cfg.radius ∧
      (0 ≤ dr.u ∧ dr.u < 1) ∧ (0 ≤ dr.v ∧ dr.v < 1) ∧ (0 ≤ dr.w ∧ dr.w < 1)) ∧
    (cfg.xMin ≤ x ∧ x ≤ cfg.xMax ∧ cfg.yMin ≤ y ∧ y ≤ cfg.yMax) ∧
    (0 ≤ d ∧ d ≤ cfg.radius) ∧
    (vertexXY lib x y d 1 = (x + d * Real.sin 1, y + d * Real.cos 1) ∧
      |(vertexXY lib x y d 1).1 - x| ≤ d ∧ |(vertexXY lib x y d 1).2 - y| ≤ d ∧
      Real.sqrt (((vertexXY lib x y d 1).1 - x) ^ 2 + ((vertexXY lib x y d 1).2 - y) ^ 2) = d ∧
      Real.sqrt (((vertexXY lib x y d 1).1 - x) ^ 2 + ((vertexXY lib x y d 1).2 - y) ^ 2)
        ≤ cfg.radius) ∧
    (∀ p, genPolygon lib cfg dr = .ok p →
      p.x = x ∧ p.y = y ∧ p.d = d ∧
      ∀ q ∈ p.points, |q.1 - x| ≤ d ∧ |q.2 - y| ≤ d ∧
        Real.sqrt ((q.1 - x) ^ 2 + (q.2 - y) ^ 2) = d) := by
  intro cfg dr lib x y d
  have h1 : cfg.xMin ≤ cfg.xMax := by norm_num [cfg]
  have h2 : cfg.yMin ≤ cfg.yMax := by norm_num [cfg]
  have h3 : 0 ≤ cfg.radius := by norm_num [cfg]
  have h4 : 0 ≤ dr.u ∧ dr.u < 1 := by norm_num [dr]
  have h5 : 0 ≤ dr.v ∧ dr.v < 1 := by norm_num [dr]
  have h6 : 0 ≤ dr.w ∧ dr.w < 1 := by norm_num [dr]
  exact ⟨⟨h1, h2, h3, h4, h5, h6⟩, vertices_within_disk (fun _ => "") cfg dr 1 h1 h2 h3 h4 h5 h6⟩

/-! ## The loop of `prepare` -/

theorem exec_values_of_resultsOk {σ : Type} (db : Database σ) (hres : db.resultsOk)
    (st : σ) (q : Stmt) :
    ∃ last rows err, exec db st q = (.values last rows err, (db.exec st q).2) := by
  unfold exec
  rcases hq : db.exec st q with ⟨reply, st1⟩
  cases reply with
  | error e => exact ⟨0, 0, some e, rfl⟩
  | ok r =>
    obtain ⟨⟨last, hl⟩, ⟨rows, hr⟩⟩ := hres st q r st1 hq
    simp only [hl, hr]
    exact ⟨last, rows, none, rfl⟩

theorem countP_isInsert_append_prints (tr : List Event) (lines : List String) (q : Stmt) :
    (tr ++ lines.map Event.print ++ [Event.exec q]).countP Event.isInsert =
      tr.countP Event.isInsert + (if q.isInsert then 1 else 0) := by
  have h0 : (lines.map Event.print).countP Event.isInsert = 0 := by
    rw [List.countP_eq_zero]
    intro e he
    obtain ⟨l, -, rfl⟩ := List.mem_map.1 he
    simp [Event.isInsert]
  rw [List.countP_append, List.countP_append, h0]
  cases hq : q.isInsert <;> simp [Event.isInsert, hq]

theorem countP_isDrop_append_prints (tr : List Event) (lines : List String) (q : Stmt) :
    (tr ++ lines.map Event.print ++ [Event.exec q]).countP Event.isDrop =
      tr.countP Event.isDrop + (if q.isDrop then 1 else 0) := by
  have h0 : (lines.map Event.print).countP Event.isDrop = 0 := by
    rw [List.countP_eq_zero]
    intro e he
    obtain ⟨l, -, rfl⟩ := List.mem_map.1 he
    simp [Event.isDrop]
  rw [List.countP_append, List.countP_append, h0]
  cases hq : q.isDrop <;> simp [Event.isDrop, hq]

/-- The loop of `prepare` when no iteration panics: whatever the `INSERT`
statements return, it runs `tableSize - i` iterations, executes one `INSERT`
in each and no `DROP TABLE`, and ends with the final `numRows`. -/
theorem prepareLoop_inserts {σ F : Type} [LinearOrderedCommRing F] (lib : FloatLib F)
    (cfg : Flags F) (db : Database σ) (draws : Nat → Draw F)
    (hsize : cfg.tableSize < 2 ^ 64) (hres : db.resultsOk)
    (hk : 0 < wrapInt (cfg.maxPoints - cfg.minPoints))
    (hn : ∀ k, 0 < wrapInt (cfg.minPoints + (draws k).r)) :
    ∀ (fuel k i : Nat) (st : σ) (tr : List Event), cfg.tableSize - i < fuel →
      ∃ stEnd,
        (prepareLoop lib cfg db draws fuel k i st tr).status =
          (match (numRows db cfg.tableName stEnd).1 with
            | .ok _ => Status.returned
            | .error e => Status.panicked e) ∧
        (prepareLoop lib cfg db draws fuel k i st tr).db =
          (numRows db cfg.tableName stEnd).2 ∧
        (prepareLoop lib cfg db draws fuel k i st tr).trace.countP Event.isInsert =
          tr.countP Event.isInsert + (cfg.tableSize - i) ∧
        (prepareLoop lib cfg db draws fuel k i st tr).trace.countP Event.isDrop =
          tr.countP Event.isDrop := by
  intro fuel
  induction fuel with
  | zero => intro k i st tr h; omega
  | succ fuel ih =>
    intro k i st tr hfuel
    by_cases hi : i < cfg.tableSize
    · obtain ⟨p, hp⟩ := genPolygon_returns lib cfg (draws k) hk (hn k)
      obtain ⟨last, rows, err, hex⟩ :=
        exec_values_of_resultsOk db hres st (.insert cfg.tableName p.text)
      have hw : wrapUint64 (i + 1) = i + 1 := by
        unfold wrapUint64
        exact Nat.mod_eq_of_lt (by omega)
      obtain ⟨stEnd, h1, h2, h3, h4⟩ := ih (k + 1) (i + 1)
        (db.exec st (.insert cfg.tableName p.text)).2
        (tr ++ p.printed.map Event.print ++ [Event.exec (.insert cfg.tableName p.text)])
        (by omega)
      refine ⟨stEnd, ?_, ?_, ?_, ?_⟩
      · simp only [prepareLoop, if_pos hi, hp, hex, hw]
        exact h1
      · simp only [prepareLoop, if_pos hi, hp, hex, hw]
        exact h2
      · simp only [prepareLoop, if_pos hi, hp, hex, hw]
        rw [h3, countP_isInsert_append_prints]
        simp only [Stmt.isInsert, if_true]
        omega
      · simp only [prepareLoop, if_pos hi, hp, hex, hw]
        rw [h4, countP_isDrop_append_prints]
        simp [Stmt.isDrop]
    · refine ⟨st, ?_, ?_, ?_, ?_⟩
      · simp only [prepareLoop, if_neg hi]
        rcases hnr : numRows db cfg.tableName st with ⟨res, st1⟩
        cases res <;> rfl
      · simp only [prepareLoop, if_neg hi]
        rcases hnr : numRows db cfg.tableName st with ⟨res, st1⟩
        cases res <;> rfl
      · simp only [prepareLoop, if_neg hi]
        rcases hnr : numRows db cfg.tableName st with ⟨res, st1⟩
        have : cfg.tableSize - i = 0 := by omega
        cases res <;> simp [Event.isInsert, this]
      · simp only [prepareLoop, if_neg hi]
        rcases hnr : numRows db cfg.tableName st with ⟨res, st1⟩
        cases res <;> simp [Event.isDrop]

theorem countingStore_resultsOk : countingStore.resultsOk := by
  intro st q r st1 h
  cases q <;> simp only [countingStore, Prod.mk.injEq, Except.ok.injEq] at h <;>
    obtain ⟨rfl, -⟩ := h <;> exact ⟨⟨_, rfl⟩, ⟨_, rfl⟩⟩

theorem rejectingStore_resultsOk : rejectingStore.resultsOk := by
  intro st q r st1 h
  cases q <;> simp only [rejectingStore, Prod.mk.injEq, Except.ok.injEq] at h <;>
    first
    | (obtain ⟨rfl, -⟩ := h; exact ⟨⟨_, rfl⟩, ⟨_, rfl⟩⟩)
    | exact absurd h.1 (by simp)

/-- Valid vertex flags and draws in the range of `rand.Intn` keep the loop
body of `prepare` from panicking. -/
theorem points_ok_of_valid (minPoints maxPoints r : Int)
    (hmin : 1 ≤ minPoints) (hlt : minPoints < maxPoints) (hmax : maxPoints ≤ maxInt)
    (hr0 : 0 ≤ r) (hr : r < maxPoints - minPoints) :
    0 < wrapInt (maxPoints - minPoints) ∧ 0 < wrapInt (minPoints + r) := by
  unfold maxInt at hmax
  have h1 : wrapInt (maxPoints - minPoints) = maxPoints - minPoints :=
    wrapInt_of_isInt (by unfold isInt minInt maxInt; omega)
  have h2 : wrapInt (minPoints + r) = minPoints + r :=
    wrapInt_of_isInt (by unfold isInt minInt maxInt; omega)
  rw [h1, h2]
  omega

/-- The loop of `prepare` on the counting store: the store ends with the
rows it had plus one for each remaining iteration. -/
theorem prepareLoop_countingStore_db {F : Type} [LinearOrderedCommRing F] (lib : FloatLib F)
    (cfg : Flags F) (draws : Nat → Draw F)
    (hsize : cfg.tableSize < 2 ^ 64)
    (hk : 0 < wrapInt (cfg.maxPoints - cfg.minPoints))
    (hn : ∀ k, 0 < wrapInt (cfg.minPoints + (draws k).r)) :
    ∀ (fuel k i rows : Nat) (tr : List Event), cfg.tableSize - i < fuel →
      rows + (cfg.tableSize - i) < 2 ^ 64 →
      (prepareLoop lib cfg countingStore draws fuel k i rows tr).db =
        rows + (cfg.tableSize - i) ∧
      (prepareLoop lib cfg countingStore draws fuel k i rows tr).status = .returned := by
  intro fuel
  induction fuel with
  | zero => intro k i rows tr h; omega
  | succ fuel ih =>
    intro k i rows tr hfuel hrows
    by_cases hi : i < cfg.tableSize
    · obtain ⟨p, hp⟩ := genPolygon_returns lib cfg (draws k) hk (hn k)
      have hex : exec countingStore rows (.insert cfg.tableName p.text) =
          (.values (Int.ofNat (rows + 1)) 1 none, rows + 1) := rfl
      have hw : wrapUint64 (i + 1) = i + 1 := by
        unfold wrapUint64
        exact Nat.mod_eq_of_lt (by omega)
      obtain ⟨h1, h2⟩ := ih (k + 1) (i + 1) (rows + 1)
        (tr ++ p.printed.map Event.print ++ [Event.exec (.insert cfg.tableName p.text)])
        (by omega) (by omega)
      simp only [prepareLoop, if_pos hi, hp, hex, hw]
      exact ⟨by rw [h1]; omega, h2⟩
    · have h0 : cfg.tableSize - i = 0 := by omega
      have hnr : numRows countingStore cfg.tableName rows = (.ok rows, rows) := by
        simp only [numRows, countingStore]
        rw [if_pos (by omega)]
      simp only [prepareLoop, if_neg hi, hnr, h0]
      exact ⟨rfl, trivial⟩

/-! ## Populating up to the target (C4) -/

/-- C4 fails on the code as worded: with `-min_points=0 -max_points=1
-table_size=5` on the empty store (`s = 0 < t = 5`) and `rand.Intn(1)`
returning 0, the first polygon has no vertex and line 104 panics on
`vertices[0]`, so `prepare` executes no `INSERT` where the claim says 5. -/
theorem prepare_zero_points_no_insert :
    numRows countingStore zeroPointsFlags.tableName 0 = (.ok 0, 0) ∧
    zeroPointsFlags.tableSize = 5 ∧
    vertexCount zeroPointsFlags.minPoints zeroPointsFlags.maxPoints fixedDraw.r = .ok 0 ∧
    (prepare ratLib zeroPointsFlags countingStore (fun _ => fixedDraw) 6 0).status =
      .panicked "index out of range" ∧
    (prepare ratLib zeroPointsFlags countingStore (fun _ => fixedDraw) 6 0).inserts = 0 ∧
    (prepare ratLib zeroPointsFlags countingStore (fun _ => fixedDraw) 6 0).inserts ≠
      zeroPointsFlags.tableSize - 0 := by
  refine ⟨rfl, rfl, by with_unfolding_all rfl, ?_, ?_, ?_⟩ <;> with_unfolding_all decide

/-- C4 as amended: for vertex flags `1 <= minPoints < maxPoints` (draws of
`rand.Intn` in range, a driver whose result methods succeed), when `numRows`
reports `s` rows and the target is `tableSize = t`, `prepare` comes to its
end having executed exactly `t - s` `INSERT` statements if `s < t` and none
if `s >= t`, and no statement that removes rows.  On the store where every
`INSERT` adds one row it returns with `max s t` rows; with `t = 5` on the
empty store the first call inserts 5 rows and a second call inserts none. -/
theorem prepare_inserts_up_to_tableSize {σ F : Type} [LinearOrderedCommRing F]
    (lib : FloatLib F) (cfg : Flags F) (db : Database σ) (draws : Nat → Draw F)
    (fuel : Nat) (st0 st1 st2 : σ) (r0 : SqlResult) (s : Nat)
    (hsize : cfg.tableSize < 2 ^ 64)
    (hmin : 1 ≤ cfg.minPoints) (hlt : cfg.minPoints < cfg.maxPoints)
    (hmax : cfg.maxPoints ≤ maxInt)
    (hdraw : ∀ k, 0 ≤ (draws k).r ∧ (draws k).r < cfg.maxPoints - cfg.minPoints)
    (hres : db.resultsOk)
    (hcreate : db.exec st0 (.createTable cfg.tableName cfg.tableEngine) = (.ok r0, st1))
    (hrows : numRows db cfg.tableName st1 = (.ok s, st2))
    (hfuel : cfg.tableSize - s < fuel) :
    ((prepare lib cfg db draws fuel st0).status = .returned ∨
      ∃ e stEnd, (numRows db cfg.tableName stEnd).1 = .error e ∧
        (prepare lib cfg db draws fuel st0).status = .panicked e) ∧
    (prepare lib cfg db draws fuel st0).inserts = cfg.tableSize - s ∧
    (cfg.tableSize ≤ s → (prepare lib cfg db draws fuel st0).inserts = 0) ∧
    (prepare lib cfg db draws fuel st0).trace.countP Event.isDrop = 0 ∧
    (∀ rows fuel1 draws1, rows < 2 ^ 64 → cfg.tableSize - rows < fuel1 →
      (∀ k, 0 ≤ (draws1 k).r ∧ (draws1 k).r < cfg.maxPoints - cfg.minPoints) →
      (prepare lib cfg countingStore draws1 fuel1 rows).status = .returned ∧
      (prepare lib cfg countingStore draws1 fuel1 rows).inserts = cfg.tableSize - rows ∧
      (prepare lib cfg countingStore draws1 fuel1 rows).db = max rows cfg.tableSize) ∧
    (cfg.tableSize = 5 → 5 < fuel →
      (prepare lib cfg countingStore draws fuel 0).inserts = 5 ∧
      (prepare lib cfg countingStore draws fuel 0).db = 5 ∧
      (prepare lib cfg countingStore draws fuel
        (prepare lib cfg countingStore draws fuel 0).db).inserts = 0 ∧
      (prepare lib cfg countingStore draws fuel
        (prepare lib cfg countingStore draws fuel 0).db).db = 5) := by
  have hk : 0 < wrapInt (cfg.maxPoints - cfg.minPoints) :=
    (points_ok_of_valid _ _ _ hmin hlt hmax (hdraw 0).1 (hdraw 0).2).1
  have hn : ∀ (d : Nat → Draw F),
      (∀ k, 0 ≤ (d k).r ∧ (d k).r < cfg.maxPoints - cfg.minPoints) →
      ∀ k, 0 < wrapInt (cfg.minPoints + (d k).r) := fun d hd k =>
    (points_ok_of_valid _ _ _ hmin hlt hmax (hd k).1 (hd k).2).2
  -- the general statement, for any store
  have general : ∀ {τ : Type} (db1 : Database τ) (draws1 : Nat → Draw F) (fuel1 : Nat)
      (t0 t1 t2 : τ) (r1 : SqlResult) (s1 : Nat),
      (∀ k, 0 ≤ (draws1 k).r ∧ (draws1 k).r < cfg.maxPoints - cfg.minPoints) →
      db1.resultsOk →
      db1.exec t0 (.createTable cfg.tableName cfg.tableEngine) = (.ok r1, t1) →
      numRows db1 cfg.tableName t1 = (.ok s1, t2) → cfg.tableSize - s1 < fuel1 →
      ((prepare lib cfg db1 draws1 fuel1 t0).status = .returned ∨
        ∃ e stEnd, (numRows db1 cfg.tableName stEnd).1 = .error e ∧
          (prepare lib cfg db1 draws1 fuel1 t0).status = .panicked e) ∧
      (prepare lib cfg db1 draws1 fuel1 t0).inserts = cfg.tableSize - s1 ∧
      (prepare lib cfg db1 draws1 fuel1 t0).trace.countP Event.isDrop = 0 := by
    intro τ db1 draws1 fuel1 t0 t1 t2 r1 s1 hd1 hres1 hc1 hr1 hf1
    obtain ⟨last, rows, err, hex⟩ := exec_values_of_resultsOk db1 hres1 t0
      (.createTable cfg.tableName cfg.tableEngine)
    have herr : err = none := by
      unfold exec at hex
      rw [hc1] at hex
      obtain ⟨⟨l, hl⟩, ⟨rw, hrw⟩⟩ := hres1 _ _ _ _ hc1
      simp only [hl, hrw, Prod.mk.injEq, ExecReturn.values.injEq] at hex
      exact hex.1.2.2.symm
    subst herr
    rw [hc1] at hex
    obtain ⟨stEnd, h1, -, h3, h4⟩ := prepareLoop_inserts lib cfg db1 draws1 hsize hres1 hk
      (hn draws1 hd1) fuel1 0 s1 t2
      [Event.exec (.createTable cfg.tableName cfg.tableEngine), Event.numRows] hf1
    have hprep : prepare lib cfg db1 draws1 fuel1 t0 =
        prepareLoop lib cfg db1 draws1 fuel1 0 s1 t2
          [Event.exec (.createTable cfg.tableName cfg.tableEngine), Event.numRows] := by
      simp only [prepare, hex, hr1]
    rw [hprep]
    refine ⟨?_, ?_, ?_⟩
    · rw [h1]
      cases hnr : (numRows db1 cfg.tableName stEnd).1 with
      | ok n => exact Or.inl rfl
      | error e => exact Or.inr ⟨e, stEnd, hnr, rfl⟩
    · unfold Run.inserts
      rw [h3]
      simp [Event.isInsert, Stmt.isInsert]
    · rw [h4]
      simp [Event.isDrop, Stmt.isDrop]
  -- the counting store
  have counting : ∀ rows fuel1 draws1, rows < 2 ^ 64 → cfg.tableSize - rows < fuel1 →
      (∀ k, 0 ≤ (draws1 k).r ∧ (draws1 k).r < cfg.maxPoints - cfg.minPoints) →
      (prepare lib cfg countingStore draws1 fuel1 rows).status = .returned ∧
      (prepare lib cfg countingStore draws1 fuel1 rows).inserts = cfg.tableSize - rows ∧
      (prepare lib cfg countingStore draws1 fuel1 rows).db = max rows cfg.tableSize := by
    intro rows fuel1 draws1 hrows1 hf1 hd1
    have hnr : numRows countingStore cfg.tableName rows = (.ok rows, rows) := by
      simp only [numRows, countingStore]
      rw [if_pos hrows1]
    obtain ⟨-, hins, -⟩ := general countingStore draws1 fuel1 rows rows rows
      { lastInsertId := .ok 0, rowsAffected := .ok 0 } rows hd1 countingStore_resultsOk rfl
      hnr hf1
    have hprep : prepare lib cfg countingStore draws1 fuel1 rows =
        prepareLoop lib cfg countingStore draws1 fuel1 0 rows rows
          [Event.exec (.createTable cfg.tableName cfg.tableEngine), Event.numRows] := by
      have hex : exec countingStore rows (.createTable cfg.tableName cfg.tableEngine) =
          (.values 0 0 none, rows) := rfl
      simp only [prepare, hex, hnr]
    obtain ⟨hdb, hst⟩ := prepareLoop_countingStore_db lib cfg draws1 hsize hk (hn draws1 hd1)
      fuel1 0 rows rows
      [Event.exec (.createTable cfg.tableName cfg.tableEngine), Event.numRows] hf1 (by omega)
    refine ⟨by rw [hprep]; exact hst, hins, ?_⟩
    rw [hprep, hdb]
    omega
  obtain ⟨g1, g2, g3⟩ := general db draws fuel st0 st1 st2 r0 s hdraw hres hcreate hrows hfuel
  refine ⟨g1, g2, ?_, g3, counting, ?_⟩
  · intro hle
    rw [g2]
    omega
  · intro h5 hf
    obtain ⟨-, c2, c3⟩ := counting 0 fuel draws (by norm_num) (by omega) hdraw
    rw [h5] at c2 c3
    have c3 : (prepare lib cfg countingStore draws fuel 0).db = 5 := by rw [c3]; rfl
    obtain ⟨-, d2, d3⟩ := counting 5 fuel draws (by norm_num) (by omega) hdraw
    rw [h5] at d2 d3
    rw [c3]
    exact ⟨c2, rfl, d2, by rw [d3]; rfl⟩

theorem prepare_inserts_up_to_tableSize_witness :
    (triangleFlags.tableSize < 2 ^ 64 ∧ 1 ≤ triangleFlags.minPoints ∧
      triangleFlags.minPoints < triangleFlags.maxPoints ∧ triangleFlags.maxPoints ≤ maxInt ∧
      (∀ k : Nat, 0 ≤ ((fun _ => fixedDraw) k : Draw ℚ).r ∧
        ((fun _ => fixedDraw) k : Draw ℚ).r < triangleFlags.maxPoints - triangleFlags.minPoints) ∧
      countingStore.resultsOk ∧
      countingStore.exec 0 (.createTable triangleFlags.tableName triangleFlags.tableEngine) =
        (.ok { lastInsertId := .ok 0, rowsAffected := .ok 0 }, 0) ∧
      numRows countingStore triangleFlags.tableName 0 = (.ok 0, 0) ∧
      triangleFlags.tableSize - 0 < 6) ∧
    (prepare ratLib triangleFlags countingStore (fun _ => fixedDraw) 6 0).inserts = 5 ∧
    (prepare ratLib triangleFlags countingStore (fun _ => fixedDraw) 6 0).db = 5 ∧
    (prepare ratLib triangleFlags countingStore (fun _ => fixedDraw) 6
      (prepare ratLib triangleFlags countingStore (fun _ => fixedDraw) 6 0).db).inserts = 0 :=
  have h := prepare_inserts_up_to_tableSize ratLib triangleFlags countingStore
    (fun _ => fixedDraw) 6 0 0 0 { lastInsertId := .ok 0, rowsAffected := .ok 0 } 0
    (by decide) (by decide) (by decide) (by decide)
    (fun _ => (show (0 : Int) ≤ fixedDraw.r ∧
      fixedDraw.r < triangleFlags.maxPoints - triangleFlags.minPoints by decide))
    countingStore_resultsOk rfl rfl (by decide)
  ⟨⟨by decide, by decide, by decide, by decide,
    fun _ => (show (0 : Int) ≤ fixedDraw.r ∧
      fixedDraw.r < triangleFlags.maxPoints - triangleFlags.minPoints by decide),
    countingStore_resultsOk, rfl, rfl, by decide⟩,
    (h.2.2.2.2.2 rfl (by decide)).1, (h.2.2.2.2.2 rfl (by decide)).2.1,
    (h.2.2.2.2.2 rfl (by decide)).2.2.1⟩

/-! ## Failing `INSERT` statements (C5) -/

/-- C5 fails on the code: on a store where every `INSERT` returns an error
(with target 2 and no rows), `exec` hands the error of the first `INSERT`
back to `prepare`, which discards it: the second `INSERT` is executed as
well and `prepare` returns normally; the error of the `CREATE TABLE` of
line 75 is the only one `prepare` looks at. -/
theorem prepare_continues_after_failed_insert :
    (exec rejectingStore 0 (.insert "geotest" "POLYGON((0 0,0 0,0 0, 0 0))")).1 =
      .values 0 0 (some "Error 1416: Cannot get geometry object") ∧
    (prepare ratLib twoRowFlags rejectingStore (fun _ => fixedDraw) 3 0).status = .returned ∧
    (prepare ratLib twoRowFlags rejectingStore (fun _ => fixedDraw) 3 0).inserts = 2 ∧
    (prepare ratLib twoRowFlags rejectingStore (fun _ => fixedDraw) 3 0).db = 2 ∧
    (prepare ratLib twoRowFlags rejectingStore (fun _ => fixedDraw) 3 0).trace.map
      Event.isInsert = [false, false, true, true, false] := by
  refine ⟨rfl, ?_, ?_, ?_, ?_⟩ <;> with_unfolding_all decide

/-! ## Vertex flags with an empty range (C6) -/

/-- C6 fails on the code: with `-min_points=3 -max_points=3` on an empty
store, `main` calls `prepare`, which creates the table and reads the row
count, and only then panics inside `rand.Intn` in the first iteration of the
loop. -/
theorem prepare_equal_points_partial_work :
    main "geotest" ["prepare"] none = .callPrepare ∧
    (prepare ratLib equalPointsFlags countingStore (fun _ => fixedDraw) 10001 0).trace =
      [Event.exec (.createTable "geotest" "MyISAM"), Event.numRows] ∧
    (prepare ratLib equalPointsFlags countingStore (fun _ => fixedDraw) 10001 0).status =
      .panicked "invalid argument to Intn" := by
  refine ⟨?_, ?_, ?_⟩ <;> with_unfolding_all decide

/-- C6 as amended: for flags with `maxPoints <= minPoints` (the difference
not wrapping around) the program checks nothing before it starts: `main`
calls `prepare`, which executes the `CREATE TABLE` and reads the row count
`s`; if `s < tableSize` the first iteration of the loop panics inside
`rand.Intn` and if `s >= tableSize` the loop is not entered and `prepare`
goes on to the final `numRows`; in both cases no `INSERT` is executed. -/
theorem prepare_empty_range {σ F : Type} [LinearOrderedCommRing F]
    (lib : FloatLib F) (cfg : Flags F) (db : Database σ) (draws : Nat → Draw F)
    (prog : String) (fuel : Nat) (st0 st1 st2 : σ) (last rows : Int) (s : Nat)
    (hle : cfg.maxPoints ≤ cfg.minPoints) (hwrap : minInt ≤ cfg.maxPoints - cfg.minPoints)
    (hcreate : exec db st0 (.createTable cfg.tableName cfg.tableEngine) =
      (.values last rows none, st1))
    (hrows : numRows db cfg.tableName st1 = (.ok s, st2))
    (hfuel : 0 < fuel) :
    main prog ["prepare"] none = .callPrepare ∧
    (prepare lib cfg db draws fuel st0).trace.take 2 =
      [Event.exec (.createTable cfg.tableName cfg.tableEngine), Event.numRows] ∧
    (prepare lib cfg db draws fuel st0).inserts = 0 ∧
    (s < cfg.tableSize →
      (prepare lib cfg db draws fuel st0).status = .panicked "invalid argument to Intn" ∧
      (prepare lib cfg db draws fuel st0).db = st2 ∧
      (prepare lib cfg db draws fuel st0).trace =
        [Event.exec (.createTable cfg.tableName cfg.tableEngine), Event.numRows]) ∧
    (cfg.tableSize ≤ s →
      (prepare lib cfg db draws fuel st0).status =
        (match (numRows db cfg.tableName st2).1 with
          | .ok _ => Status.returned
          | .error e => Status.panicked e) ∧
      (prepare lib cfg db draws fuel st0).trace =
        [Event.exec (.createTable cfg.tableName cfg.tableEngine), Event.numRows,
          Event.numRows]) := by
  obtain ⟨fuel, rfl⟩ : ∃ f, fuel = f + 1 := ⟨fuel - 1, by omega⟩
  have hk : wrapInt (cfg.maxPoints - cfg.minPoints) ≤ 0 := by
    unfold minInt at hwrap
    unfold wrapInt
    omega
  have hgen : genPolygon lib cfg (draws 0) = .error "invalid argument to Intn" := by
    simp [genPolygon, vertexCount, randIntn, hk]
  have hprep : prepare lib cfg db draws (fuel + 1) st0 =
      prepareLoop lib cfg db draws (fuel + 1) 0 s st2
        [Event.exec (.createTable cfg.tableName cfg.tableEngine), Event.numRows] := by
    simp only [prepare, hcreate, hrows]
  rw [hprep]
  by_cases hs : s < cfg.tableSize
  · have hloop : prepareLoop lib cfg db draws (fuel + 1) 0 s st2
        [Event.exec (.createTable cfg.tableName cfg.tableEngine), Event.numRows] =
        { status := .panicked "invalid argument to Intn", db := st2,
          trace := [Event.exec (.createTable cfg.tableName cfg.tableEngine), Event.numRows] } := by
      simp only [prepareLoop, if_pos hs, hgen]
    rw [hloop]
    refine ⟨rfl, rfl, ?_, fun _ => ⟨rfl, rfl, rfl⟩, fun h => absurd hs (by omega)⟩
    simp [Run.inserts, Event.isInsert, Stmt.isInsert]
  · rcases hnr : numRows db cfg.tableName st2 with ⟨res, st3⟩
    cases res with
    | ok n =>
      have hloop : prepareLoop lib cfg db draws (fuel + 1) 0 s st2
          [Event.exec (.createTable cfg.tableName cfg.tableEngine), Event.numRows] =
          { status := .returned, db := st3,
            trace := [Event.exec (.createTable cfg.tableName cfg.tableEngine), Event.numRows,
              Event.numRows] } := by
        simp only [prepareLoop, if_neg hs, hnr]
        rfl
      rw [hloop]
      refine ⟨rfl, rfl, ?_, fun h => absurd h hs, fun _ => ⟨rfl, rfl⟩⟩
      simp [Run.inserts, Event.isInsert, Stmt.isInsert]
    | error e =>
      have hloop : prepareLoop lib cfg db draws (fuel + 1) 0 s st2
          [Event.exec (.createTable cfg.tableName cfg.tableEngine), Event.numRows] =
          { status := .panicked e, db := st3,
            trace := [Event.exec (.createTable cfg.tableName cfg.tableEngine), Event.numRows,
              Event.numRows] } := by
        simp only [prepareLoop, if_neg hs, hnr]
        rfl
      rw [hloop]
      refine ⟨rfl, rfl, ?_, fun h => absurd h hs, fun _ => ⟨rfl, rfl⟩⟩
      simp [Run.inserts, Event.isInsert, Stmt.isInsert]

theorem prepare_empty_range_witness :
    (equalPointsFlags.maxPoints ≤ equalPointsFlags.minPoints ∧
      minInt ≤ equalPointsFlags.maxPoints - equalPointsFlags.minPoints ∧
      exec countingStore 0
        (.createTable equalPointsFlags.tableName equalPointsFlags.tableEngine) =
        (.values 0 0 none, 0) ∧
      numRows countingStore equalPointsFlags.tableName 0 = (.ok 0, 0) ∧ 0 < 1) ∧
    main "geotest" ["prepare"] none = .callPrepare ∧
    (prepare ratLib equalPointsFlags countingStore (fun _ => fixedDraw) 1 0).inserts = 0 ∧
    (prepare ratLib equalPointsFlags countingStore (fun _ => fixedDraw) 1 0).status =
      .panicked "invalid argument to Intn" :=
  have h := prepare_empty_range ratLib equalPointsFlags countingStore (fun _ => fixedDraw)
    "geotest" 1 0 0 0 0 0 0 (by decide) (by decide) rfl rfl (by decide)
  ⟨⟨by decide, by decide, rfl, rfl, by decide⟩, h.1, h.2.2.1, (h.2.2.2.1 (by decide)).1⟩

/-! ## An unknown mode (C10) -/

/-- C10 fails on the code for a single positional argument that names no
mode: `main` opens the database handle, falls through the `switch`, which has
no `default` case, and returns without printing or logging anything; only a
wrong number of positional arguments gets the usage line.  No mode is invoked
in either case. -/
theorem main_unknown_mode_silent :
    main "geotest" ["bogus"] none = .nothing ∧
    (main "geotest" ["bogus"] none).reports = false ∧
    (main "geotest" ["bogus"] none).invokesMode = false ∧
    main "geotest" [] none = .usage "Usage: geotest [options] prepare|run|cleanup]\n" ∧
    main "geotest" ["prepare", "run"] none =
      .usage "Usage: geotest [options] prepare|run|cleanup]\n" := by
  refine ⟨?_, ?_, ?_, ?_, ?_⟩ <;> decide

/-! ## The query worker on its own (C7) -/

theorem wrapInt_add_left (a b : Int) : wrapInt (wrapInt a + b) = wrapInt (a + b) := by
  unfold wrapInt
  omega

/-- The sum of the counts returned by the queries `j, ..., j + d - 1`. -/
theorem sum_range_succ_counts (replies : Nat → ScanReply) (j d : Nat) :
    ((List.range' j (d + 1)).map (fun i => (replies i).count)).sum =
      (replies j).count + ((List.range' (j + 1) d).map (fun i => (replies i).count)).sum := by
  simp [List.range'_succ]

/-- The loop of `oneRun` from iteration `j` when the stop signal is seen at
iteration `j + d` and the `d` queries before it succeed. -/
theorem oneRunLoop_stops {F : Type} [LinearOrderedCommRing F] (cfg : Flags F)
    (stop : Nat → Bool) (pts : Nat → F × F) (replies : Nat → ScanReply) :
    ∀ (d fuel j : Nat) (c : Counters F), d < fuel →
      (∀ i, j ≤ i → i < j + d → stop i = false) → stop (j + d) = true →
      (∀ i, j ≤ i → i < j + d → (replies i).err = none) →
      isInt c.reqs → isInt c.hits →
      (oneRunLoop cfg stop pts replies fuel j c).status = .returned ∧
      (oneRunLoop cfg stop pts replies fuel j c).done = [wrapInt (c.reqs + d)] ∧
      (oneRunLoop cfg stop pts replies fuel j c).counters.reqs = wrapInt (c.reqs + d) ∧
      (oneRunLoop cfg stop pts replies fuel j c).counters.hits =
        wrapInt (c.hits + ((List.range' j d).map (fun i => (replies i).count)).sum) ∧
      (oneRunLoop cfg stop pts replies fuel j c).counters.queries.length =
        c.queries.length + d := by
  intro d
  induction d with
  | zero =>
    intro fuel j c hfuel _ hstop _ hc hh
    obtain ⟨fuel, rfl⟩ : ∃ f, fuel = f + 1 := ⟨fuel - 1, by omega⟩
    rw [Nat.add_zero] at hstop
    have hloop : oneRunLoop cfg stop pts replies (fuel + 1) j c =
        { status := .returned, counters := c, done := [c.reqs] } := by
      simp only [oneRunLoop, hstop, if_true]
    rw [hloop]
    have h0 : wrapInt (c.reqs + ((0 : Nat) : Int)) = c.reqs := by
      rw [Nat.cast_zero, add_zero]; exact wrapInt_of_isInt hc
    refine ⟨rfl, ?_, ?_, ?_, rfl⟩
    · show [c.reqs] = _
      rw [h0]
    · show c.reqs = _
      rw [h0]
    · show c.hits = _
      simp [wrapInt_of_isInt hh]
  | succ d ih =>
    intro fuel j c hfuel hns hstop herr hc hh
    obtain ⟨fuel, rfl⟩ : ∃ f, fuel = f + 1 := ⟨fuel - 1, by omega⟩
    have hj : stop j = false := hns j (le_refl _) (by omega)
    have he : (replies j).err = none := herr j (le_refl _) (by omega)
    have hq : oneRunQuery cfg (pts j).1 (pts j).2 (replies j) c =
        (none, { reqs := wrapInt (c.reqs + 1), hits := wrapInt (c.hits + (replies j).count),
                 queries := c.queries ++ [(centreCoord cfg.xMin cfg.xMax (pts j).1,
                   centreCoord cfg.yMin cfg.yMax (pts j).2)] }) := by
      simp only [oneRunQuery, he]
    have hreqs : isInt (wrapInt (c.reqs + 1)) := by
      unfold isInt minInt maxInt wrapInt; omega
    have hhits : isInt (wrapInt (c.hits + (replies j).count)) := by
      unfold isInt minInt maxInt wrapInt; omega
    have hloop : oneRunLoop cfg stop pts replies (fuel + 1) j c =
        oneRunLoop cfg stop pts replies fuel (j + 1)
          { reqs := wrapInt (c.reqs + 1), hits := wrapInt (c.hits + (replies j).count),
            queries := c.queries ++ [(centreCoord cfg.xMin cfg.xMax (pts j).1,
              centreCoord cfg.yMin cfg.yMax (pts j).2)] } := by
      simp only [oneRunLoop, hj, hq]
      rfl
    obtain ⟨h1, h2, h3, h4, h5⟩ := ih fuel (j + 1)
      { reqs := wrapInt (c.reqs + 1), hits := wrapInt (c.hits + (replies j).count),
        queries := c.queries ++ [(centreCoord cfg.xMin cfg.xMax (pts j).1,
          centreCoord cfg.yMin cfg.yMax (pts j).2)] } (by omega)
      (fun i h1 h2 => hns i (by omega) (by omega))
      (by rw [show j + 1 + d = j + (d + 1) by omega]; exact hstop)
      (fun i h1 h2 => herr i (by omega) (by omega)) hreqs hhits
    rw [hloop]
    have e1 : wrapInt (wrapInt (c.reqs + 1) + (d : Int)) = wrapInt (c.reqs + ((d + 1 : Nat) : Int)) := by
      rw [wrapInt_add_left]; congr 1; push_cast; ring
    refine ⟨h1, ?_, ?_, ?_, ?_⟩
    · rw [h2, e1]
    · rw [h3, e1]
    · rw [h4, sum_range_succ_counts, wrapInt_add_left]; congr 1; ring
    · rw [h5]; simp only [List.length_append, List.length_singleton]; omega

/-- The loop of `oneRun` from iteration `j` when the query of iteration
`j + d` returns an error, the `d` queries before it succeed and no stop
signal is seen up to then: it panics at that query and sends nothing. -/
theorem oneRunLoop_panics {F : Type} [LinearOrderedCommRing F] (cfg : Flags F)
    (stop : Nat → Bool) (pts : Nat → F × F) (replies : Nat → ScanReply) (e : String) :
    ∀ (d fuel j : Nat) (c : Counters F), d < fuel →
      (∀ i, j ≤ i → i ≤ j + d → stop i = false) →
      (∀ i, j ≤ i → i < j + d → (replies i).err = none) →
      (replies (j + d)).err = some e →
      (oneRunLoop cfg stop pts replies fuel j c).status = .panicked e ∧
      (oneRunLoop cfg stop pts replies fuel j c).done = [] ∧
      (oneRunLoop cfg stop pts replies fuel j c).counters.queries.length =
        c.queries.length + d + 1 := by
  intro d
  induction d with
  | zero =>
    intro fuel j c hfuel hns _ herr
    obtain ⟨fuel, rfl⟩ : ∃ f, fuel = f + 1 := ⟨fuel - 1, by omega⟩
    have hj : stop j = false := hns j (le_refl _) (by omega)
    rw [Nat.add_zero] at herr
    have hq : oneRunQuery cfg (pts j).1 (pts j).2 (replies j) c =
        (some e, { reqs := c.reqs, hits := wrapInt (c.hits + (replies j).count),
                   queries := c.queries ++ [(centreCoord cfg.xMin cfg.xMax (pts j).1,
                     centreCoord cfg.yMin cfg.yMax (pts j).2)] }) := by
      simp only [oneRunQuery, herr]
    have hloop : oneRunLoop cfg stop pts replies (fuel + 1) j c =
        { status := .panicked e,
          counters := { reqs := c.reqs, hits := wrapInt (c.hits + (replies j).count),
                        queries := c.queries ++ [(centreCoord cfg.xMin cfg.xMax (pts j).1,
                          centreCoord cfg.yMin cfg.yMax (pts j).2)] },
          done := [] } := by
      simp only [oneRunLoop, hj, hq]
      rfl
    rw [hloop]
    refine ⟨rfl, rfl, ?_⟩
    simp only [List.length_append, List.length_singleton, Nat.add_zero]
  | succ d ih =>
    intro fuel j c hfuel hns hok herr
    obtain ⟨fuel, rfl⟩ : ∃ f, fuel = f + 1 := ⟨fuel - 1, by omega⟩
    have hj : stop j = false := hns j (le_refl _) (by omega)
    have he : (replies j).err = none := hok j (le_refl _) (by omega)
    have hq : oneRunQuery cfg (pts j).1 (pts j).2 (replies j) c =
        (none, { reqs := wrapInt (c.reqs + 1), hits := wrapInt (c.hits + (replies j).count),
                 queries := c.queries ++ [(centreCoord cfg.xMin cfg.xMax (pts j).1,
                   centreCoord cfg.yMin cfg.yMax (pts j).2)] }) := by
      simp only [oneRunQuery, he]
    have hloop : oneRunLoop cfg stop pts replies (fuel + 1) j c =
        oneRunLoop cfg stop pts replies fuel (j + 1)
          { reqs := wrapInt (c.reqs + 1), hits := wrapInt (c.hits + (replies j).count),
            queries := c.queries ++ [(centreCoord cfg.xMin cfg.xMax (pts j).1,
              centreCoord cfg.yMin cfg.yMax (pts j).2)] } := by
      simp only [oneRunLoop, hj, hq]
      rfl
    obtain ⟨h1, h2, h3⟩ := ih fuel (j + 1)
      { reqs := wrapInt (c.reqs + 1), hits := wrapInt (c.hits + (replies j).count),
        queries := c.queries ++ [(centreCoord cfg.xMin cfg.xMax (pts j).1,
          centreCoord cfg.yMin cfg.yMax (pts j).2)] } (by omega)
      (fun i h1 h2 => hns i (by omega) (by omega))
      (fun i h1 h2 => hok i (by omega) (by omega))
      (by rw [show j + 1 + d = j + (d + 1) by omega]; exact herr)
    rw [hloop]
    refine ⟨h1, h2, ?_⟩
    rw [h3]
    simp only [List.length_append, List.length_singleton]
    omega

/-- C7: `oneRun` against a sequence of query outcomes, with the stop signal
first seen at the top of iteration `k + 1` (index `k`, after `k` queries).
If the `k` queries succeed with counts `c_1 .. c_k`, it returns having sent
exactly one value on `done`, `reqs = k`, with `hits = c_1 + ... + c_k` (as a
Go `int`), and it has issued exactly `k` queries, none after the stop
signal.  If query `i + 1 <= k` is the first to return an error, it panics at
that query, having issued `i + 1` queries, and sends nothing on `done`. -/
theorem oneRun_stops_or_panics {F : Type} [LinearOrderedCommRing F] (cfg : Flags F)
    (stop : Nat → Bool) (pts : Nat → F × F) (replies : Nat → ScanReply) (k fuel : Nat)
    (hfuel : k < fuel) (hns : ∀ j, j < k → stop j = false) (hstop : stop k = true)
    (hk : (k : Int) ≤ maxInt) :
    ((∀ j, j < k → (replies j).err = none) →
      (oneRun cfg stop pts replies fuel).status = .returned ∧
      (oneRun cfg stop pts replies fuel).done = [(k : Int)] ∧
      (oneRun cfg stop pts replies fuel).counters.reqs = (k : Int) ∧
      (oneRun cfg stop pts replies fuel).counters.hits =
        wrapInt (((List.range k).map (fun j => (replies j).count)).sum) ∧
      (isInt (((List.range k).map (fun j => (replies j).count)).sum) →
        (oneRun cfg stop pts replies fuel).counters.hits =
          ((List.range k).map (fun j => (replies j).count)).sum) ∧
      (oneRun cfg stop pts replies fuel).counters.queries.length = k) ∧
    (∀ i e, i < k → (∀ j, j < i → (replies j).err = none) → (replies i).err = some e →
      (oneRun cfg stop pts replies fuel).status = .panicked e ∧
      (oneRun cfg stop pts replies fuel).done = [] ∧
      (oneRun cfg stop pts replies fuel).counters.queries.length = i + 1) := by
  have hz : isInt (0 : Int) := by unfold isInt minInt maxInt; omega
  have hkk : wrapInt ((0 : Int) + (k : Int)) = (k : Int) := by
    rw [zero_add]
    apply wrapInt_of_isInt
    unfold maxInt at hk
    unfold isInt minInt maxInt
    omega
  constructor
  · intro hok
    obtain ⟨h1, h2, h3, h4, h5⟩ := oneRunLoop_stops cfg stop pts replies k fuel 0
      { reqs := 0, hits := 0, queries := [] } hfuel
      (fun i _ h => hns i (by omega)) (by rw [Nat.zero_add]; exact hstop)
      (fun i _ h => hok i (by omega)) hz hz
    have h4b : (oneRun cfg stop pts replies fuel).counters.hits =
        wrapInt (((List.range k).map (fun j => (replies j).count)).sum) := by
      unfold oneRun
      rw [h4, List.range_eq_range']
      simp
    refine ⟨h1, ?_, ?_, h4b, ?_, ?_⟩
    · unfold oneRun; rw [h2]; exact congrArg (fun z => [z]) hkk
    · unfold oneRun; rw [h3]; exact hkk
    · intro hs; rw [h4b]; exact wrapInt_of_isInt hs
    · unfold oneRun; rw [h5]; simp
  · intro i e hi hok herr
    obtain ⟨h1, h2, h3⟩ := oneRunLoop_panics cfg stop pts replies e i fuel 0
      { reqs := 0, hits := 0, queries := [] } (by omega)
      (fun j _ h => hns j (by omega)) (fun j _ h => hok j (by omega))
      (by rw [Nat.zero_add]; exact herr)
    refine ⟨h1, h2, ?_⟩
    unfold oneRun
    rw [h3]
    simp

/-- Three iterations: two queries that find 2 and 0 polygons, then the stop
signal. -/
theorem oneRun_stops_or_panics_witness :
    ((2 : Nat) < 5 ∧ (∀ j, j < 2 → (fun i => decide (2 ≤ i)) j = false) ∧
      (fun i => decide (2 ≤ i)) 2 = true ∧ ((2 : Nat) : Int) ≤ maxInt) ∧
    (oneRun defaultFlags (fun i => decide (2 ≤ i)) (fun _ => (1 / 2, 1 / 2))
      (fun i => if i = 0 then { count := 2, err := none } else { count := 0, err := none })
      5).status = .returned ∧
    (oneRun defaultFlags (fun i => decide (2 ≤ i)) (fun _ => (1 / 2, 1 / 2))
      (fun i => if i = 0 then { count := 2, err := none } else { count := 0, err := none })
      5).done = [2] ∧
    (oneRun defaultFlags (fun i => decide (2 ≤ i)) (fun _ => (1 / 2, 1 / 2))
      (fun i => if i = 0 then { count := 2, err := none } else { count := 0, err := none })
      5).counters.queries.length = 2 :=
  have hok : ∀ j, j < 2 → ((fun i : Nat =>
      if i = 0 then ({ count := 2, err := none } : ScanReply)
      else { count := 0, err := none }) j).err = none := by
    intro j _
    dsimp only
    split <;> rfl
  have h := oneRun_stops_or_panics defaultFlags (fun i => decide (2 ≤ i))
    (fun _ => (1 / 2, 1 / 2))
    (fun i => if i = 0 then { count := 2, err := none } else { count := 0, err := none })
    2 5 (by decide) (fun j hj => by simp; omega) (by decide) (by decide)
  ⟨⟨by decide, fun j hj => by simp; omega, by decide, by decide⟩,
    (h.1 hok).1, (h.1 hok).2.1, (h.1 hok).2.2.2.2.2⟩

/-! ## The coordinator and its goroutines (C8) -/

theorem workers_split {α : Type} (ws : List α) (w : Nat) (wk : α)
    (h : ws[w]? = some wk) :
    ∃ l1 l2, ws = l1 ++ wk :: l2 ∧ ∀ wk1, ws.set w wk1 = l1 ++ wk1 :: l2 := by
  induction ws generalizing w with
  | nil => simp at h
  | cons a t ih =>
    cases w with
    | zero =>
      simp only [List.getElem?_cons_zero, Option.some.injEq] at h
      subst h
      exact ⟨[], t, rfl, fun _ => rfl⟩
    | succ w =>
      simp only [List.getElem?_cons_succ] at h
      obtain ⟨l1, l2, h1, h2⟩ := ih w h
      exact ⟨a :: l1, l2, by rw [h1]; rfl, fun wk1 => by rw [List.set_cons_succ, h2]; rfl⟩

theorem chanCap_cast {F : Type} (cfg : Flags F) (h : 0 ≤ cfg.numThreads) :
    ((chanCap cfg : Nat) : Int) = cfg.numThreads := by
  unfold chanCap
  exact Int.toNat_of_nonneg h

theorem inv_runStart {F : Type} [LinearOrderedField F] (cfg : Flags F)
    (h : 0 ≤ cfg.numThreads) : Inv cfg (runStart cfg) := by
  refine ⟨?_, ?_, ?_, ?_⟩
  · exact ⟨le_refl _, h, rfl, rfl, rfl, rfl⟩
  · exact Nat.zero_le _
  · rfl
  · exact List.Perm.refl _

/-- When the coordinator has finished, every goroutine has returned and the
channel `done` is empty. -/
theorem inv_finished {F : Type} [LinearOrderedField F] (cfg : Flags F) (s : System F)
    (hinv : Inv cfg s) (total : Int) (hfin : s.coord = .finished total) :
    s.done = [] ∧ (∀ wk ∈ s.workers, wk.hasExited = true) ∧
    s.received.Perm (s.workers.map (fun w => w.counters.reqs)) := by
  obtain ⟨hc, hlen, -, hperm⟩ := hinv
  rw [hfin] at hc
  obtain ⟨h1, -, h3, -, -⟩ := hc
  have hl := hperm.length_eq
  rw [List.length_append, List.length_map, h3] at hl
  have hfl : (s.workers.filter Worker.hasExited).length ≤ s.workers.length :=
    List.length_filter_le _ _
  have hdone : s.done = [] := List.eq_nil_of_length_eq_zero (by omega)
  have hall : s.workers.filter Worker.hasExited = s.workers := by
    apply List.Sublist.eq_of_length_le (List.filter_sublist _)
    omega
  refine ⟨hdone, ?_, ?_⟩
  · intro wk hwk
    rw [← hall] at hwk
    exact (List.mem_filter.1 hwk).2
  · rw [hdone, List.append_nil, hall] at hperm
    exact hperm

theorem wrapInt_succ_of_lt (i n : Int) (h0 : 0 ≤ i) (hi : i < n) (hn : n ≤ maxInt) :
    wrapInt (i + 1) = i + 1 := by
  apply wrapInt_of_isInt
  unfold maxInt at hn
  unfold isInt minInt maxInt
  omega

theorem inv_runStep {F : Type} [LinearOrderedField F] (cfg : Flags F)
    (hW : 0 ≤ cfg.numThreads) (hmax : cfg.numThreads ≤ maxInt) (s : System F)
    (hinv : Inv cfg s) : Inv cfg (runStep cfg s) := by
  have hcap := chanCap_cast cfg hW
  rcases s with ⟨coord, workers, stop, done, panic, sends, received, report⟩
  obtain ⟨hc, hlen, htok, hperm⟩ := hinv
  dsimp only [coordInv] at hc hlen htok hperm
  cases coord with
  | spawn i =>
    obtain ⟨h0, h1, h2, h3, h4, h5⟩ := hc
    by_cases hi : i < cfg.numThreads
    · have hstep : runStep cfg ⟨.spawn i, workers, stop, done, panic, sends, received, report⟩ =
          ⟨.spawn (i + 1), workers ++ [Worker.start], stop, done, panic, sends, received,
            report⟩ := by
        simp only [runStep, if_pos hi, wrapInt_succ_of_lt i _ h0 hi hmax]
      rw [hstep]
      dsimp only [Inv, coordInv]
      refine ⟨⟨by omega, by omega, ?_, h3, h4, h5⟩, ?_, ?_, ?_⟩
      · simp only [List.length_append, List.length_singleton]; push_cast; omega
      · simp only [List.length_append, List.length_singleton]; omega
      · simp only [List.countP_append, List.countP_cons, List.countP_nil]
        simpa [Worker.stopped, Worker.start] using htok
      · simp only [List.filter_append]
        simpa [Worker.hasExited, Worker.start] using hperm
    · have hstep : runStep cfg ⟨.spawn i, workers, stop, done, panic, sends, received, report⟩ =
          ⟨.sleep, workers, stop, done, panic, sends, received, report⟩ := by
        simp only [runStep, if_neg hi]
      rw [hstep]
      dsimp only [Inv, coordInv]
      exact ⟨⟨by omega, h3, h4, h5⟩, hlen, htok, hperm⟩
  | sleep =>
    obtain ⟨h1, h2, h3, h4⟩ := hc
    have hstep : runStep cfg ⟨.sleep, workers, stop, done, panic, sends, received, report⟩ =
        ⟨.signal 0, workers, stop, done, panic, sends, received, report⟩ := rfl
    rw [hstep]
    dsimp only [Inv, coordInv]
    exact ⟨⟨le_refl _, hW, h1, by simp [h2], h3, h4⟩, hlen, htok, hperm⟩
  | signal i =>
    obtain ⟨h0, h1, h2, h3, h4, h5⟩ := hc
    by_cases hi : i < cfg.numThreads
    · by_cases hroom : stop < chanCap cfg
      · have hstep : runStep cfg
            ⟨.signal i, workers, stop, done, panic, sends, received, report⟩ =
            ⟨.signal (i + 1), workers, stop + 1, done, panic, sends + 1, received, report⟩ := by
          simp only [runStep, if_pos hi, if_pos hroom, wrapInt_succ_of_lt i _ h0 hi hmax]
        rw [hstep]
        dsimp only [Inv, coordInv]
        refine ⟨⟨by omega, by omega, h2, by push_cast; omega, h4, h5⟩, hlen, ?_, hperm⟩
        omega
      · have hstep : runStep cfg
            ⟨.signal i, workers, stop, done, panic, sends, received, report⟩ =
            ⟨.signal i, workers, stop, done, panic, sends, received, report⟩ := by
          simp only [runStep, if_pos hi, if_neg hroom]
        rw [hstep]
        dsimp only [Inv, coordInv]
        exact ⟨⟨h0, h1, h2, h3, h4, h5⟩, hlen, htok, hperm⟩
    · have hstep : runStep cfg
          ⟨.signal i, workers, stop, done, panic, sends, received, report⟩ =
          ⟨.collect 0 0, workers, stop, done, panic, sends, received, report⟩ := by
        simp only [runStep, if_neg hi]
      rw [hstep]
      dsimp only [Inv, coordInv]
      refine ⟨⟨le_refl _, hW, h2, by omega, by simp [h4], by simp [h4, wrapInt], h5⟩,
        hlen, htok, hperm⟩
  | collect i total =>
    obtain ⟨h0, h1, h2, h3, h4, h5, h6⟩ := hc
    by_cases hi : i < cfg.numThreads
    · cases done with
      | nil =>
        have hstep : runStep cfg
            ⟨.collect i total, workers, stop, [], panic, sends, received, report⟩ =
            ⟨.collect i total, workers, stop, [], panic, sends, received, report⟩ := by
          simp only [runStep, if_pos hi]
        rw [hstep]
        dsimp only [Inv, coordInv]
        exact ⟨⟨h0, h1, h2, h3, h4, h5, h6⟩, hlen, htok, hperm⟩
      | cons v rest =>
        have hstep : runStep cfg
            ⟨.collect i total, workers, stop, v :: rest, panic, sends, received, report⟩ =
            ⟨.collect (i + 1) (wrapInt (total + v)), workers, stop, rest, panic, sends,
              received ++ [v], report⟩ := by
          simp only [runStep, if_pos hi, wrapInt_succ_of_lt i _ h0 hi hmax]
        rw [hstep]
        dsimp only [Inv, coordInv]
        refine ⟨⟨by omega, by omega, h2, h3, ?_, ?_, h6⟩, hlen, htok, ?_⟩
        · simp only [List.length_append, List.length_singleton]; push_cast; omega
        · rw [h5, wrapInt_add_left, List.sum_append]; simp
        · simpa using hperm
    · have hstep : runStep cfg
          ⟨.collect i total, workers, stop, done, panic, sends, received, report⟩ =
          ⟨.finished total, workers, stop, done, panic, sends, received,
            some (throughput cfg total)⟩ := by
        simp only [runStep, if_neg hi]
      rw [hstep]
      dsimp only [Inv, coordInv]
      exact ⟨⟨h2, h3, by omega, h5, rfl⟩, hlen, htok, hperm⟩
  | finished total =>
    have hstep : runStep cfg
        ⟨.finished total, workers, stop, done, panic, sends, received, report⟩ =
        ⟨.finished total, workers, stop, done, panic, sends, received, report⟩ := rfl
    rw [hstep]
    dsimp only [Inv, coordInv]
    exact ⟨hc, hlen, htok, hperm⟩

theorem inv_oneRunStep {F : Type} [LinearOrderedField F] (cfg : Flags F) (env : Env F)
    (s : System F) (w : Nat) (hinv : Inv cfg s) : Inv cfg (oneRunStep cfg env s w) := by
  rcases s with ⟨coord, workers, stop, done, panic, sends, received, report⟩
  obtain ⟨hc, hlen, htok, hperm⟩ := hinv
  dsimp only at hc hlen htok hperm
  cases hw : workers[w]? with
  | none =>
    have hstep : oneRunStep cfg env
        ⟨coord, workers, stop, done, panic, sends, received, report⟩ w =
        ⟨coord, workers, stop, done, panic, sends, received, report⟩ := by
      simp only [oneRunStep, hw]
    rw [hstep]
    exact ⟨hc, hlen, htok, hperm⟩
  | some wk =>
    obtain ⟨l1, l2, hws, hset⟩ := workers_split workers w wk hw
    have hlen1 : ∀ wk1 : Worker F, (l1 ++ wk1 :: l2).length = workers.length := by
      intro wk1; rw [hws]; simp
    rcases wk with ⟨pc, counters⟩
    cases pc with
    | select =>
      by_cases hs : 0 < stop
      · have hstep : oneRunStep cfg env
            ⟨coord, workers, stop, done, panic, sends, received, report⟩ w =
            ⟨coord, l1 ++ ⟨.send, counters⟩ :: l2, stop - 1, done, panic, sends, received,
              report⟩ := by
          simp only [oneRunStep, hw, if_pos hs, hset]
        rw [hstep]
        dsimp only [Inv]
        rw [hlen1]
        refine ⟨hc, hlen, ?_, ?_⟩
        · rw [hws] at htok
          simp only [List.countP_append, List.countP_cons, Worker.stopped] at htok ⊢
          simp only [Bool.false_eq_true, if_false, if_true] at htok ⊢
          omega
        · rw [hws] at hperm
          simpa [List.filter_append, List.filter_cons, Worker.hasExited] using hperm
      · have hstep : oneRunStep cfg env
            ⟨coord, workers, stop, done, panic, sends, received, report⟩ w =
            ⟨coord, l1 ++ ⟨.query, counters⟩ :: l2, stop, done, panic, sends, received,
              report⟩ := by
          simp only [oneRunStep, hw, if_neg hs, hset]
        rw [hstep]
        dsimp only [Inv]
        rw [hlen1]
        refine ⟨hc, hlen, ?_, ?_⟩
        · rw [hws] at htok
          simpa [List.countP_append, List.countP_cons, Worker.stopped] using htok
        · rw [hws] at hperm
          simpa [List.filter_append, List.filter_cons, Worker.hasExited] using hperm
    | query =>
      rcases hq : oneRunQuery cfg env.u env.v env.reply counters with ⟨_ | e, c1⟩
      · have hstep : oneRunStep cfg env
            ⟨coord, workers, stop, done, panic, sends, received, report⟩ w =
            ⟨coord, l1 ++ ⟨.select, c1⟩ :: l2, stop, done, panic, sends, received,
              report⟩ := by
          simp only [oneRunStep, hw, hq, hset]
        rw [hstep]
        dsimp only [Inv]
        rw [hlen1]
        refine ⟨hc, hlen, ?_, ?_⟩
        · rw [hws] at htok
          simpa [List.countP_append, List.countP_cons, Worker.stopped] using htok
        · rw [hws] at hperm
          simpa [List.filter_append, List.filter_cons, Worker.hasExited] using hperm
      · have hstep : oneRunStep cfg env
            ⟨coord, workers, stop, done, panic, sends, received, report⟩ w =
            ⟨coord, l1 ++ ⟨.query, c1⟩ :: l2, stop, done, some e, sends, received,
              report⟩ := by
          simp only [oneRunStep, hw, hq, hset]
        rw [hstep]
        dsimp only [Inv]
        rw [hlen1]
        refine ⟨hc, hlen, ?_, ?_⟩
        · rw [hws] at htok
          simpa [List.countP_append, List.countP_cons, Worker.stopped] using htok
        · rw [hws] at hperm
          simpa [List.filter_append, List.filter_cons, Worker.hasExited] using hperm
    | send =>
      by_cases hroom : done.length < chanCap cfg
      · have hstep : oneRunStep cfg env
            ⟨coord, workers, stop, done, panic, sends, received, report⟩ w =
            ⟨coord, l1 ++ ⟨.exited, counters⟩ :: l2, stop, done ++ [counters.reqs], panic,
              sends, received, report⟩ := by
          simp only [oneRunStep, hw, if_pos hroom, hset]
        rw [hstep]
        dsimp only [Inv]
        rw [hlen1]
        refine ⟨hc, hlen, ?_, ?_⟩
        · rw [hws] at htok
          simpa [List.countP_append, List.countP_cons, Worker.stopped] using htok
        · rw [hws] at hperm
          simp only [List.filter_append, List.filter_cons, Worker.hasExited, List.map_append,
            Bool.false_eq_true, if_false, if_true, List.map_cons] at hperm ⊢
          rw [← List.append_assoc]
          exact (List.perm_append_singleton _ _).trans
            ((List.Perm.cons _ hperm).trans List.perm_middle.symm)
      · have hstep : oneRunStep cfg env
            ⟨coord, workers, stop, done, panic, sends, received, report⟩ w =
            ⟨coord, workers, stop, done, panic, sends, received, report⟩ := by
          simp only [oneRunStep, hw, if_neg hroom]
        rw [hstep]
        exact ⟨hc, hlen, htok, hperm⟩
    | exited =>
      have hstep : oneRunStep cfg env
          ⟨coord, workers, stop, done, panic, sends, received, report⟩ w =
          ⟨coord, workers, stop, done, panic, sends, received, report⟩ := by
        simp only [oneRunStep, hw]
      rw [hstep]
      exact ⟨hc, hlen, htok, hperm⟩

theorem runStep_panic {F : Type} [LinearOrderedField F] (cfg : Flags F) (s : System F) :
    (runStep cfg s).panic = s.panic := by
  rcases s with ⟨coord, workers, stop, done, panic, sends, received, report⟩
  cases coord with
  | spawn i => simp only [runStep]; split <;> rfl
  | sleep => rfl
  | signal i => simp only [runStep]; split <;> [split <;> rfl; rfl]
  | collect i total =>
    simp only [runStep]
    split
    · cases done <;> rfl
    · rfl
  | finished total => rfl

theorem oneRunStep_coord {F : Type} [LinearOrderedField F] (cfg : Flags F) (env : Env F)
    (s : System F) (w : Nat) : (oneRunStep cfg env s w).coord = s.coord := by
  unfold oneRunStep
  split
  · rfl
  · split
    · split <;> rfl
    · split <;> rfl
    · split <;> rfl
    · rfl

theorem oneRunStep_of_exited {F : Type} [LinearOrderedField F] (cfg : Flags F) (env : Env F)
    (s : System F) (w : Nat) (h : ∀ wk ∈ s.workers, wk.hasExited = true) :
    oneRunStep cfg env s w = s := by
  unfold oneRunStep
  cases hw : s.workers[w]? with
  | none => rfl
  | some wk =>
    have hx := h wk (List.getElem?_mem hw)
    rcases wk with ⟨pc, counters⟩
    cases pc <;> simp [Worker.hasExited] at hx ⊢

theorem safe_step {F : Type} [LinearOrderedField F] (cfg : Flags F)
    (hW : 0 ≤ cfg.numThreads) (hmax : cfg.numThreads ≤ maxInt) (s : System F)
    (t : Tid × Env F) (hs : Safe cfg s) : Safe cfg (step cfg s t) := by
  unfold step
  cases hp : s.panic with
  | some e => exact hs
  | none =>
    rcases t with ⟨tid, env⟩
    cases tid with
    | coordinator =>
      refine ⟨inv_runStep cfg hW hmax s hs.1, fun total _ => ?_⟩
      show (runStep cfg s).panic = none
      rw [runStep_panic, hp]
    | worker w =>
      refine ⟨inv_oneRunStep cfg env s w hs.1, fun total hfin => ?_⟩
      show (oneRunStep cfg env s w).panic = none
      have hfin1 : s.coord = .finished total := by
        rw [← oneRunStep_coord cfg env s w]; exact hfin
      rw [oneRunStep_of_exited cfg env s w (inv_finished cfg s hs.1 total hfin1).2.1]
      exact hp

theorem safe_runSched {F : Type} [LinearOrderedField F] (cfg : Flags F)
    (hW : 0 ≤ cfg.numThreads) (hmax : cfg.numThreads ≤ maxInt)
    (sched : List (Tid × Env F)) :
    ∀ s : System F, Safe cfg s → Safe cfg (runSched cfg s sched) := by
  induction sched with
  | nil => intro s hs; exact hs
  | cons t rest ih =>
    intro s hs
    exact ih (step cfg s t) (safe_step cfg hW hmax s t hs)

theorem safe_runStart {F : Type} [LinearOrderedField F] (cfg : Flags F)
    (hW : 0 ≤ cfg.numThreads) : Safe cfg (runStart cfg) :=
  ⟨inv_runStart cfg hW, fun total h => by simp [runStart] at h⟩

theorem durationSeconds_eq {F : Type} [LinearOrderedField F] (d : Int) :
    (durationSeconds d : F) = (d : F) / 1000000000 := by
  unfold durationSeconds
  have h := Int.tdiv_add_tmod d 1000000000
  have hF : ((1000000000 : Int) : F) * ((d.tdiv 1000000000 : Int) : F) +
      ((d.tmod 1000000000 : Int) : F) = (d : F) := by
    rw [← Int.cast_mul, ← Int.cast_add, h]
  have h9 : (1000000000 : F) ≠ 0 := by norm_num
  rw [← hF]
  field_simp
  ring

theorem runSched_append {F : Type} [LinearOrderedField F] (cfg : Flags F) (s : System F)
    (a b : List (Tid × Env F)) :
    runSched cfg s (a ++ b) = runSched cfg (runSched cfg s a) b := by
  unfold runSched
  exact List.foldl_append _ _ _ _

theorem runSched_cons {F : Type} [LinearOrderedField F] (cfg : Flags F) (s : System F)
    (t : Tid × Env F) (rest : List (Tid × Env F)) :
    runSched cfg s (t :: rest) = runSched cfg (step cfg s t) rest := rfl

/-- The loop of lines 139-141 run without interruption: `m` more goroutines
are started. -/
theorem spawn_steps {F : Type} [LinearOrderedField F] (cfg : Flags F)
    (hmax : cfg.numThreads ≤ maxInt) (env : Env F) :
    ∀ (m : Nat) (i : Int) (ws : List (Worker F)), 0 ≤ i → i + m ≤ cfg.numThreads →
      runSched cfg ⟨.spawn i, ws, 0, [], none, 0, [], none⟩
        (List.replicate m (Tid.coordinator, env)) =
      ⟨.spawn (i + m), ws ++ List.replicate m Worker.start, 0, [], none, 0, [], none⟩ := by
  intro m
  induction m with
  | zero => intro i ws _ _; simp [runSched]
  | succ m ih =>
    intro i ws h0 hle
    have hi : i < cfg.numThreads := by push_cast at hle; omega
    have hstep : step cfg ⟨.spawn i, ws, 0, [], none, 0, [], none⟩ (Tid.coordinator, env) =
        ⟨.spawn (i + 1), ws ++ [Worker.start], 0, [], none, 0, [], none⟩ := by
      simp only [step, runStep, if_pos hi, wrapInt_succ_of_lt i _ h0 hi hmax]
    rw [List.replicate_succ, runSched_cons, hstep,
      ih (i + 1) (ws ++ [Worker.start]) (by omega) (by push_cast at hle ⊢; omega)]
    have e1 : i + 1 + (m : Int) = i + ((m + 1 : Nat) : Int) := by push_cast; ring
    have e2 : ws ++ [Worker.start] ++ List.replicate m Worker.start =
        ws ++ List.replicate (m + 1) Worker.start := by
      rw [List.append_assoc, List.replicate_succ]; rfl
    rw [e1, e2]

/-- The loop of lines 144-146 run without interruption: `m` more values are
sent on `stop`. -/
theorem signal_steps {F : Type} [LinearOrderedField F] (cfg : Flags F)
    (hmax : cfg.numThreads ≤ maxInt) (env : Env F) (ws : List (Worker F)) :
    ∀ (m : Nat) (i : Int) (k : Nat), 0 ≤ i → i + m ≤ cfg.numThreads →
      k + m ≤ chanCap cfg →
      runSched cfg ⟨.signal i, ws, k, [], none, k, [], none⟩
        (List.replicate m (Tid.coordinator, env)) =
      ⟨.signal (i + m), ws, k + m, [], none, k + m, [], none⟩ := by
  intro m
  induction m with
  | zero => intro i k _ _ _; simp [runSched]
  | succ m ih =>
    intro i k h0 hle hcap
    have hi : i < cfg.numThreads := by push_cast at hle; omega
    have hroom : k < chanCap cfg := by omega
    have hstep : step cfg ⟨.signal i, ws, k, [], none, k, [], none⟩ (Tid.coordinator, env) =
        ⟨.signal (i + 1), ws, k + 1, [], none, k + 1, [], none⟩ := by
      simp only [step, runStep, if_pos hi, if_pos hroom, wrapInt_succ_of_lt i _ h0 hi hmax]
    rw [List.replicate_succ, runSched_cons, hstep,
      ih (i + 1) (k + 1) (by omega) (by push_cast at hle ⊢; omega) (by omega)]
    have e1 : i + 1 + (m : Int) = i + ((m + 1 : Nat) : Int) := by push_cast; ring
    have e2 : k + 1 + m = k + (m + 1) := by omega
    rw [e1, e2]

theorem getElem?_mid {α : Type} (l1 l2 : List α) (a : α) :
    (l1 ++ a :: l2)[l1.length]? = some a := by
  rw [List.getElem?_append_right (Nat.le_refl _)]
  simp

theorem set_mid {α : Type} (l1 l2 : List α) (a b : α) :
    (l1 ++ a :: l2).set l1.length b = l1 ++ b :: l2 := by
  simp

/-- Each of `m` goroutines at the top of its loop, scheduled twice while `m`
values are buffered in `stop`, receives one and sends its count `0`. -/
theorem worker_steps {F : Type} [LinearOrderedField F] (cfg : Flags F) (env : Env F)
    (pc : CoordPc) (sends : Nat) (received : List Int) (report : Option F) :
    ∀ (m : Nat) (l1 : List (Worker F)) (done : List Int),
      done.length + m ≤ chanCap cfg →
      runSched cfg ⟨pc, l1 ++ List.replicate m Worker.start, m, done, none, sends,
          received, report⟩
        ((List.range' l1.length m).flatMap
          (fun j => [(Tid.worker j, env), (Tid.worker j, env)])) =
      ⟨pc, l1 ++ List.replicate m { Worker.start with pc := .exited }, 0,
        done ++ List.replicate m 0, none, sends, received, report⟩ := by
  intro m
  induction m with
  | zero => intro l1 done _; simp [runSched]
  | succ m ih =>
    intro l1 done hcap
    have hroom : done.length < chanCap cfg := by omega
    have hstep1 : step cfg ⟨pc, l1 ++ Worker.start :: List.replicate m Worker.start, m + 1,
        done, none, sends, received, report⟩ (Tid.worker l1.length, env) =
        ⟨pc, l1 ++ { Worker.start with pc := .send } :: List.replicate m Worker.start, m,
          done, none, sends, received, report⟩ := by
      simp only [step, oneRunStep, getElem?_mid, set_mid, Worker.start, Nat.succ_pos,
        if_true, Nat.add_sub_cancel]
    have hstep2 : step cfg
        ⟨pc, l1 ++ { Worker.start with pc := .send } :: List.replicate m Worker.start, m,
          done, none, sends, received, report⟩ (Tid.worker l1.length, env) =
        ⟨pc, l1 ++ { Worker.start with pc := .exited } :: List.replicate m Worker.start, m,
          done ++ [0], none, sends, received, report⟩ := by
      simp only [step, oneRunStep, getElem?_mid, set_mid, Worker.start, if_pos hroom]
    have hl : (l1 ++ [{ Worker.start with pc := .exited }]).length = l1.length + 1 := by simp
    have hih := ih (l1 ++ [{ Worker.start with pc := .exited }]) (done ++ [0])
      (by simp only [List.length_append, List.length_singleton]; omega)
    rw [hl] at hih
    rw [List.range'_succ, List.flatMap_cons, List.replicate_succ]
    simp only [List.cons_append, List.nil_append, runSched_cons]
    rw [hstep1, hstep2]
    have e1 : l1 ++ { Worker.start with pc := .exited } :: List.replicate m Worker.start =
        l1 ++ [{ Worker.start with pc := .exited }] ++ List.replicate m Worker.start := by
      simp
    rw [e1, hih]
    simp [List.replicate_succ]

/-- The loop of lines 148-150 run without interruption on `m` buffered
counts `0`. -/
theorem collect_steps {F : Type} [LinearOrderedField F] (cfg : Flags F)
    (hmax : cfg.numThreads ≤ maxInt) (env : Env F) (ws : List (Worker F)) (sends : Nat) :
    ∀ (m : Nat) (i : Int) (received : List Int), 0 ≤ i → i + m ≤ cfg.numThreads →
      runSched cfg ⟨.collect i 0, ws, 0, List.replicate m 0, none, sends, received, none⟩
        (List.replicate m (Tid.coordinator, env)) =
      ⟨.collect (i + m) 0, ws, 0, [], none, sends, received ++ List.replicate m 0, none⟩ := by
  intro m
  induction m with
  | zero => intro i received _ _; simp [runSched]
  | succ m ih =>
    intro i received h0 hle
    have hi : i < cfg.numThreads := by push_cast at hle; omega
    have hz : wrapInt (0 + 0) = 0 := by decide
    have hstep : step cfg
        ⟨.collect i 0, ws, 0, 0 :: List.replicate m 0, none, sends, received, none⟩
        (Tid.coordinator, env) =
        ⟨.collect (i + 1) 0, ws, 0, List.replicate m 0, none, sends, received ++ [0],
          none⟩ := by
      simp only [step, runStep, if_pos hi, wrapInt_succ_of_lt i _ h0 hi hmax, hz]
    rw [List.replicate_succ, List.replicate_succ, runSched_cons, hstep,
      ih (i + 1) (received ++ [0]) (by omega) (by push_cast at hle ⊢; omega)]
    have e1 : i + 1 + (m : Int) = i + ((m + 1 : Nat) : Int) := by push_cast; ring
    rw [e1]
    simp

/-- On the quiet schedule `run` comes to its end: every goroutine is started,
receives its stop signal and has its count collected. -/
theorem quietSchedule_finishes {F : Type} [LinearOrderedField F] (cfg : Flags F)
    (hW : 0 ≤ cfg.numThreads) (hmax : cfg.numThreads ≤ maxInt) (env : Env F) :
    runSched cfg (runStart cfg) (quietSchedule env (chanCap cfg)) =
      ⟨.finished 0, List.replicate (chanCap cfg) { Worker.start with pc := .exited }, 0, [],
        none, chanCap cfg, List.replicate (chanCap cfg) 0, some (throughput cfg 0)⟩ := by
  have hcap := chanCap_cast cfg hW
  have hnot : ¬ cfg.numThreads < cfg.numThreads := lt_irrefl _
  have hstart : runStart cfg = ⟨.spawn 0, [], 0, [], none, 0, [], none⟩ := by
    simp only [runStart, if_neg (not_lt.2 hW)]
  have h1 := spawn_steps cfg hmax env (chanCap cfg) 0 [] (le_refl _) (by omega)
  have h3 := signal_steps cfg hmax env (List.replicate (chanCap cfg) Worker.start)
    (chanCap cfg) 0 0 (le_refl _) (by omega) (by omega)
  have h4 := worker_steps cfg env (.collect 0 0) (chanCap cfg) [] none (chanCap cfg) [] []
    (by simp)
  have h5 := collect_steps cfg hmax env
    (List.replicate (chanCap cfg) { Worker.start with pc := .exited }) (chanCap cfg)
    (chanCap cfg) 0 [] (le_refl _) (by omega)
  simp only [zero_add, hcap, List.nil_append, List.length_nil, Nat.zero_add] at h1 h3 h4 h5
  rw [← List.range_eq_range'] at h4
  unfold quietSchedule
  simp only [List.replicate_succ', runSched_append, List.append_assoc]
  rw [hstart, h1]
  have s1 : runSched cfg ⟨.spawn cfg.numThreads, List.replicate (chanCap cfg) Worker.start,
      0, [], none, 0, [], none⟩ [(Tid.coordinator, env)] =
      ⟨.sleep, List.replicate (chanCap cfg) Worker.start, 0, [], none, 0, [], none⟩ := by
    simp only [runSched, List.foldl, step, runStep, if_neg hnot]
  have s2 : runSched cfg ⟨.sleep, List.replicate (chanCap cfg) Worker.start,
      0, [], none, 0, [], none⟩ [(Tid.coordinator, env)] =
      ⟨.signal 0, List.replicate (chanCap cfg) Worker.start, 0, [], none, 0, [], none⟩ := rfl
  have s3 : runSched cfg ⟨.signal cfg.numThreads, List.replicate (chanCap cfg) Worker.start,
      chanCap cfg, [], none, chanCap cfg, [], none⟩ [(Tid.coordinator, env)] =
      ⟨.collect 0 0, List.replicate (chanCap cfg) Worker.start, chanCap cfg, [], none,
        chanCap cfg, [], none⟩ := by
    simp only [runSched, List.foldl, step, runStep, if_neg hnot]
  have s5 : runSched cfg ⟨.collect cfg.numThreads 0,
      List.replicate (chanCap cfg) { Worker.start with pc := .exited }, 0, [], none,
      chanCap cfg, List.replicate (chanCap cfg) 0, none⟩ [(Tid.coordinator, env)] =
      ⟨.finished 0, List.replicate (chanCap cfg) { Worker.start with pc := .exited }, 0, [],
        none, chanCap cfg, List.replicate (chanCap cfg) 0, some (throughput cfg 0)⟩ := by
    simp only [runSched, List.foldl, step, runStep, if_neg hnot]
  rw [s1, s2, h3, s3, h4, h5, s5]

/-- C8: for every worker count `W = numThreads >= 0` and duration
`D = maxTime > 0`, `run` can come to its end, and on every interleaving of
`run` with its goroutines on which it does, the process has not panicked,
`run` has sent exactly `W` values on `stop`, each of the `W` goroutines has
received one and has returned, `run` has received exactly `W` values from
`done`, which are the request counts of the `W` goroutines, one for each,
`total` is their sum (as a Go `int`), and the logged throughput is
`total / (D / 10^9)`, the duration in seconds being positive. -/
theorem run_collects_every_worker {F : Type} [LinearOrderedField F] (cfg : Flags F)
    (hW : 0 ≤ cfg.numThreads) (hmax : cfg.numThreads ≤ maxInt) (hD : 0 < cfg.maxTime) :
    (∃ (sched : List (Tid × Env F)) (total : Int),
      (run cfg sched).coord = .finished total) ∧
    ∀ (sched : List (Tid × Env F)) (total : Int),
      (run cfg sched).coord = .finished total →
      (run cfg sched).panic = none ∧
      ((run cfg sched).stopSends : Int) = cfg.numThreads ∧
      (run cfg sched).stop = 0 ∧
      (((run cfg sched).workers.length : Nat) : Int) = cfg.numThreads ∧
      (∀ wk ∈ (run cfg sched).workers, wk.pc = .exited) ∧
      (((run cfg sched).received.length : Nat) : Int) = cfg.numThreads ∧
      (run cfg sched).done = [] ∧
      (run cfg sched).received.Perm
        ((run cfg sched).workers.map (fun w => w.counters.reqs)) ∧
      total = wrapInt
        ((run cfg sched).workers.map (fun w => w.counters.reqs)).sum ∧
      (isInt ((run cfg sched).workers.map
          (fun w => w.counters.reqs)).sum →
        total =
          ((run cfg sched).workers.map (fun w => w.counters.reqs)).sum) ∧
      (0 : F) < (cfg.maxTime : F) / 1000000000 ∧
      (run cfg sched).report =
        some ((total : F) / ((cfg.maxTime : F) / 1000000000)) := by
  have hcap := chanCap_cast cfg hW
  constructor
  · refine ⟨quietSchedule { u := 0, v := 0, reply := { count := 0, err := none } }
      (chanCap cfg), 0, ?_⟩
    unfold run
    rw [quietSchedule_finishes cfg hW hmax]
  · intro sched total hfin
    have hsafe := safe_runSched cfg hW hmax sched _ (safe_runStart cfg hW)
    unfold run at hfin ⊢
    generalize runSched cfg (runStart cfg) sched = s at hfin hsafe ⊢
    obtain ⟨hinv, hpanic⟩ := hsafe
    obtain ⟨hdone, hall, hperm⟩ := inv_finished cfg s hinv total hfin
    obtain ⟨hc, -, htok, -⟩ := hinv
    rw [hfin] at hc
    obtain ⟨h1, h2, h3, h4, h5⟩ := hc
    have hstopped : s.workers.countP Worker.stopped = s.workers.length := by
      rw [List.countP_eq_length]
      intro wk hwk
      have := hall wk hwk
      rcases wk with ⟨pc, counters⟩
      cases pc <;> simp [Worker.hasExited, Worker.stopped] at this ⊢
    have hsum : s.received.sum = (s.workers.map (fun w => w.counters.reqs)).sum :=
      hperm.sum_eq
    have hpos : (0 : F) < (cfg.maxTime : F) / 1000000000 := by
      apply div_pos
      · exact_mod_cast hD
      · norm_num
    refine ⟨hpanic total hfin, by rw [h2]; exact hcap, by omega, by rw [h1]; exact hcap, ?_,
      by rw [h3]; exact hcap, hdone, hperm, by rw [← hsum]; exact h4, ?_, hpos, ?_⟩
    · intro wk hwk
      have := hall wk hwk
      rcases wk with ⟨pc, counters⟩
      cases pc <;> simp [Worker.hasExited] at this ⊢
    · intro hint
      rw [h4, hsum]
      exact wrapInt_of_isInt hint
    · rw [h5, throughput, durationSeconds_eq]

theorem run_collects_every_worker_witness :
    ((0 : Int) ≤ twoThreadFlags.numThreads ∧ twoThreadFlags.numThreads ≤ maxInt ∧
      0 < twoThreadFlags.maxTime) ∧
    ∃ (sched : List (Tid × Env ℚ)) (total : Int),
      (run twoThreadFlags sched).coord = .finished total :=
  ⟨by decide, (run_collects_every_worker twoThreadFlags (by decide) (by decide)
    (by decide)).1⟩

end GeoTest
